import Mathlib

/-!
Verification of the temptable allocation subsystem (Allocator / Block /
Chunk / MemoryMonitor) against its natural-language specification.

The allocator headers (`storage/temptable/include/temptable/allocator.h`,
`block.h`, `constants.h`) are not part of the provided sources — only the
unit tests (`unittest/gunit/temptable_allocator-t.cc`) are.  All definitions
below are therefore modelled from the specification document, faithful to
its wording, and checked for consistency with the behaviour the unit tests
exercise.
-/

namespace Temptable

/-- Modelled from the spec: byte-size of one KiB (user-defined literal
`1_KiB` in `constants.h`, which is missing from the sources). -/
def one_KiB : Nat := 1024

/-- Modelled from the spec: byte-size of one MiB (user-defined literal
`1_MiB` in `constants.h`, which is missing from the sources). -/
def one_MiB : Nat := 1024 * 1024

/-- Modelled from the spec: the allocator's alignment unit (`constants.h`
is missing from the sources; the spec only says chunk sizes are rounded up
to an alignment boundary, so a concrete 8-byte unit is chosen). -/
def CHUNK_ALIGN : Nat := 8

/-- Modelled from the spec: fixed per-chunk bookkeeping overhead (the
chunk header that lets a raw pointer recover its owning Block; exact value
is not in the sources, 8 bytes chosen). -/
def CHUNK_METADATA_SIZE : Nat := 8

/-- Modelled from the spec: per-block bookkeeping overhead added by
`Block::size_hint` (exact value is not in the sources, 8 bytes chosen). -/
def BLOCK_METADATA_SIZE : Nat := 8

/-- Modelled from the spec: the default block granularity used as a lower
bound for a newly created Block's capacity (1 MiB, consistent with the
unit tests in which a freshly materialized shared Block holds exactly
1 MiB worth of requests). -/
def BLOCK_GRANULARITY : Nat := one_MiB

/-- Modelled from the spec: the fixed maximum block size
(`ALLOCATOR_MAX_BLOCK_BYTES` in `constants.h`, which is missing from the
sources; 512 MiB chosen). -/
def ALLOCATOR_MAX_BLOCK_BYTES : Nat := 512 * one_MiB

/-- Round `n` up to the allocator's alignment unit. -/
def alignUp (n : Nat) : Nat := ((n + CHUNK_ALIGN - 1) / CHUNK_ALIGN) * CHUNK_ALIGN

namespace Chunk

/-- Modelled from the spec: `Chunk::size_hint(requested)` — reserved size
for a caller-requested byte count: adds the fixed per-chunk bookkeeping
overhead and rounds up to the alignment boundary. -/
def size_hint (n : Nat) : Nat := alignUp (n + CHUNK_METADATA_SIZE)

end Chunk

/-- Modelled from the spec: the backing kind of a Block (RAM or
memory-mapped file). -/
inductive Source where
  | RAM
  | MMAP
deriving DecidableEq

/-- Modelled from the spec: a Block is one contiguous memory arena with a
backing kind, a fixed capacity, a bump offset and an occupied-chunk count.
`id` stands for the identity of the underlying memory region (two Block
handles are equal iff they denote the same region); `committed` records
whether the underlying memory has been materialized. -/
structure Block where
  id : Nat
  committed : Bool
  source : Source
  capacity : Nat
  offset : Nat
  chunkCount : Nat
deriving DecidableEq

/-- Modelled from the spec: a pointer returned by `allocate` — the identity
of the owning Block plus the address (byte offset inside the block) of the
chunk's data region.  The owning Block is recoverable from the pointer
alone, as the spec requires of `Chunk`. -/
structure Ptr where
  blockId : Nat
  addr : Nat
deriving DecidableEq

namespace Block

/-- Modelled from the spec: `Block::size_hint(chunk_size)` — the minimum
block capacity able to host one chunk of the given reserved size (adds the
per-block bookkeeping overhead). -/
def size_hint (chunkSize : Nat) : Nat := BLOCK_METADATA_SIZE + chunkSize

/-- Modelled from the spec: `is_empty()` holds iff the offset is 0 and no
memory has been committed. -/
def is_empty (b : Block) : Bool := b.offset == 0 && !b.committed

/-- Modelled from the spec: `can_accommodate(size)` is true iff
`capacity − offset ≥ size`; pure, no mutation. -/
def can_accommodate (b : Block) (size : Nat) : Bool := decide (size ≤ b.capacity - b.offset)

/-- Modelled from the spec: `destroy()` releases the underlying memory;
afterwards `is_empty()` reports true and the block is inert. -/
def destroy (b : Block) : Block :=
  { b with committed := false, capacity := 0, offset := 0, chunkCount := 0 }

/-- Modelled from the spec: materializing the underlying memory of a block
with the given capacity and backing kind.  The bump offset starts just past
the per-block bookkeeping area. -/
def commit (b : Block) (cap : Nat) (src : Source) : Block :=
  { b with committed := true, source := src, capacity := cap,
           offset := BLOCK_METADATA_SIZE, chunkCount := 0 }

/-- Modelled from the spec: bump-allocation of one chunk of the given
reserved size: advances the offset by the reserved size and returns a
pointer to the chunk's data region (past the chunk header); precondition
`can_accommodate(reserved)` — callers check first. -/
def bump (b : Block) (reserved : Nat) : Ptr × Block :=
  (⟨b.id, b.offset + CHUNK_METADATA_SIZE⟩,
   { b with offset := b.offset + reserved, chunkCount := b.chunkCount + 1 })

/-- Modelled from the spec: releasing one chunk inside a block.  If the
chunk is the block's current rightmost chunk (its reserved region ends
exactly at the bump offset) the offset is retracted by the chunk's reserved
size; the occupied-chunk count is decremented either way. -/
def deallocateChunk (b : Block) (addr n : Nat) : Block :=
  let start := addr - CHUNK_METADATA_SIZE
  let reserved := Chunk.size_hint n
  if start + reserved = b.offset then
    { b with offset := start, chunkCount := b.chunkCount - 1 }
  else
    { b with chunkCount := b.chunkCount - 1 }

end Block

/-- Modelled from the spec: the process-wide MemoryMonitor — for each of
the RAM and MMAP pools an (atomically updated) consumption counter and a
configurable ceiling, plus the global flag enabling MMAP funding. -/
structure MemoryMonitor where
  ram_consumption : Nat
  ram_threshold : Nat
  mmap_consumption : Nat
  mmap_threshold : Nat
  use_mmap : Bool
deriving DecidableEq

namespace MemoryMonitor

/-- Modelled from the spec: `MemoryMonitor::RAM::increase(n)` — attempts
`counter += n` with admission check `counter + n ≤ threshold`; on success
returns the new counter value, on rejection performs no mutation and
signals admission failure. -/
def ram_increase (m : MemoryMonitor) (n : Nat) : Option (Nat × MemoryMonitor) :=
  if m.ram_consumption + n ≤ m.ram_threshold then
    some (m.ram_consumption + n, { m with ram_consumption := m.ram_consumption + n })
  else none

/-- Modelled from the spec: `MemoryMonitor::RAM::decrease(n)` — computes
`counter -= n` (clamped not to go below zero) and returns the value prior
to the decrease. -/
def ram_decrease (m : MemoryMonitor) (n : Nat) : Nat × MemoryMonitor :=
  (m.ram_consumption, { m with ram_consumption := m.ram_consumption - n })

/-- Modelled from the spec: `MemoryMonitor::MMAP::increase(n)`. -/
def mmap_increase (m : MemoryMonitor) (n : Nat) : Option (Nat × MemoryMonitor) :=
  if m.mmap_consumption + n ≤ m.mmap_threshold then
    some (m.mmap_consumption + n, { m with mmap_consumption := m.mmap_consumption + n })
  else none

/-- Modelled from the spec: `MemoryMonitor::MMAP::decrease(n)`. -/
def mmap_decrease (m : MemoryMonitor) (n : Nat) : Nat × MemoryMonitor :=
  (m.mmap_consumption, { m with mmap_consumption := m.mmap_consumption - n })

/-- Modelled from the spec: decrease dispatched on the pool that funded a
block. -/
def decrease_for (m : MemoryMonitor) (src : Source) (n : Nat) : MemoryMonitor :=
  match src with
  | .RAM => (m.ram_decrease n).2
  | .MMAP => (m.mmap_decrease n).2

end MemoryMonitor

/-- Modelled from the spec: the allocator-specific failure — `OutOfSpace`,
surfaced as `temptable::Result::RECORD_FILE_FULL` in the unit tests. -/
inductive Result where
  | RECORD_FILE_FULL
deriving DecidableEq

/-- Modelled from the spec: the Allocator's state — an optional borrowed
shared Block, the ordered list of self-created Blocks (most recently
created first), a supply of fresh block identities, and the process-wide
MemoryMonitor (bundled here for explicit state passing). -/
structure Allocator where
  shared : Option Block
  owned : List Block
  nextId : Nat
  monitor : MemoryMonitor
deriving DecidableEq

/-- Modelled from the spec: target capacity of a newly created Block —
`max(Block::size_hint(size), default block granularity)` capped at the
fixed maximum block size; when the single chunk alone would not fit under
the cap, the block is sized exactly to fit this one chunk. -/
def target_block_size (chunkSize : Nat) : Nat :=
  if ALLOCATOR_MAX_BLOCK_BYTES < Block.size_hint chunkSize then
    Block.size_hint chunkSize
  else
    min (max (Block.size_hint chunkSize) BLOCK_GRANULARITY) ALLOCATOR_MAX_BLOCK_BYTES

/-- Modelled from the spec: scan of the owned Blocks, most recently created
first, for the first one able to accommodate the reserved size; on success
the chunk is bump-allocated in place. -/
def findBump (size : Nat) : List Block → Option (Ptr × List Block)
  | [] => none
  | b :: rest =>
    if b.can_accommodate size then
      let pb := b.bump size
      some (pb.1, pb.2 :: rest)
    else
      match findBump size rest with
      | some (p, rest2) => some (p, b :: rest2)
      | none => none

/-- Modelled from the spec: creation of a new owned Block (allocate step 5):
funding is attempted from RAM first, then — only if the MMAP pool is
enabled — from MMAP; if both refuse, the whole call fails with
`RECORD_FILE_FULL` and nothing is mutated. -/
def createBlock (size : Nat) (s : Allocator) : Except Result (Option Ptr) × Allocator :=
  let cap := target_block_size size
  let mk : Source → MemoryMonitor → Except Result (Option Ptr) × Allocator := fun src m2 =>
    let nb : Block := { id := s.nextId, committed := true, source := src,
                        capacity := cap, offset := BLOCK_METADATA_SIZE, chunkCount := 0 }
    let pb := nb.bump size
    (.ok (some pb.1),
     { s with owned := pb.2 :: s.owned, nextId := s.nextId + 1, monitor := m2 })
  match s.monitor.ram_increase cap with
  | some (_, m2) => mk .RAM m2
  | none =>
    if s.monitor.use_mmap then
      match s.monitor.mmap_increase cap with
      | some (_, m2) => mk .MMAP m2
      | none => (.error .RECORD_FILE_FULL, s)
    else (.error .RECORD_FILE_FULL, s)

/-- Modelled from the spec: allocate steps 4–5 — scan the owned Blocks and
fall back to creating a new Block. -/
def allocateFromOwned (size : Nat) (s : Allocator) : Except Result (Option Ptr) × Allocator :=
  match findBump size s.owned with
  | some (p, owned2) => (.ok (some p), { s with owned := owned2 })
  | none => createBlock size s

/-- Modelled from the spec: `allocate(n)`.  Step 1: `n = 0` returns null
with no side effects.  Step 2: compute the reserved size.  Step 3: serve
from the shared Block when present and able to accommodate (never counted
in MemoryMonitor; a still-unmaterialized shared Block is materialized on
first use with the step-5a target capacity, funded by its external owner).
Steps 4–5: owned-block scan, then new-block creation. -/
def allocate (n : Nat) (s : Allocator) : Except Result (Option Ptr) × Allocator :=
  if n = 0 then (.ok none, s)
  else
    let size := Chunk.size_hint n
    match s.shared with
    | some sb =>
      if sb.committed then
        if sb.can_accommodate size then
          let pb := sb.bump size
          (.ok (some pb.1), { s with shared := some pb.2 })
        else allocateFromOwned size s
      else
        let sb2 := sb.commit (target_block_size size) .RAM
        let pb := sb2.bump size
        (.ok (some pb.1), { s with shared := some pb.2 })
    | none => allocateFromOwned size s

/-- Modelled from the spec: deallocate steps 2–4 for a chunk owned by one
of the self-created Blocks: release the chunk in its block; if the block
thereby becomes fully empty, physically destroy it, return its capacity to
the pool that funded it and remove it from the owned list. -/
def deallocInOwned (p : Ptr) (n : Nat) (m : MemoryMonitor) :
    List Block → List Block × MemoryMonitor
  | [] => ([], m)
  | b :: rest =>
    if b.id = p.blockId then
      let b2 := b.deallocateChunk p.addr n
      if b2.chunkCount = 0 then
        (rest, m.decrease_for b2.source b2.capacity)
      else
        (b2 :: rest, m)
    else
      let rm := deallocInOwned p n m rest
      (b :: rm.1, rm.2)

/-- Modelled from the spec: `deallocate(ptr, n)` — resolve the owning Block
from the pointer; release the chunk there (with rightmost-chunk
retraction); a shared Block is never physically released by the allocator,
while an owned Block that becomes fully empty is destroyed and its
capacity returned to the funding pool. -/
def deallocate (p : Ptr) (n : Nat) (s : Allocator) : Allocator :=
  match s.shared with
  | some sb =>
    if sb.id = p.blockId then
      { s with shared := some (sb.deallocateChunk p.addr n) }
    else
      let rm := deallocInOwned p n s.monitor s.owned
      { s with owned := rm.1, monitor := rm.2 }
  | none =>
    let rm := deallocInOwned p n s.monitor s.owned
    { s with owned := rm.1, monitor := rm.2 }

/-- Modelled from the spec: running a sequence of allocations in order,
recording whether every call completed without error. -/
def allocateSeq : List Nat → Allocator → Bool × Allocator
  | [], s => (true, s)
  | n :: rest, s =>
    match allocate n s with
    | (.ok _, s2) =>
      let r := allocateSeq rest s2
      (r.1, r.2)
    | (.error _, s2) =>
      let r := allocateSeq rest s2
      (false, r.2)

/-- Sum of the reserved sizes of a sequence of requests. -/
def sumReserved (ns : List Nat) : Nat := (ns.map Chunk.size_hint).sum

/-- All Blocks currently held by an allocator state: the borrowed shared
Block (if any) followed by the owned Blocks. -/
def blocksOf (s : Allocator) : List Block := s.shared.toList ++ s.owned

/-- Start of the reserved region (chunk header included) of a live
allocation, recovered from the data pointer exactly as `deallocate` does. -/
def chunkStart (a : Ptr × Nat) : Nat := a.1.addr - CHUNK_METADATA_SIZE

/-- End of the reserved region of a live allocation. -/
def chunkEnd (a : Ptr × Nat) : Nat := chunkStart a + Chunk.size_hint a.2

/-- Removal of the first occurrence of a live-allocation record from the
live list (the bookkeeping counterpart of one `deallocate` call). -/
def removeFirst (a : Ptr × Nat) : List (Ptr × Nat) → List (Ptr × Nat)
  | [] => []
  | x :: rest => if x = a then rest else x :: removeFirst a rest

/-- Modelled from the spec: the states reachable by the single thread that
owns one Allocator — start from a fresh allocator, optionally seeded with
a caller-supplied, not yet materialized shared Block, and perform
arbitrary `allocate` / `deallocate` calls (deallocating only currently
live allocations, as well-formed callers do) and global reconfigurations
that do not touch the consumption counters.  The list records the live
allocations as (pointer, requested size) pairs. -/
inductive Reach : Allocator → List (Ptr × Nat) → Prop where
  | init (sb : Option Block) (nid : Nat) (m : MemoryMonitor)
      (hsb : ∀ b, sb = some b → b.committed = false ∧ b.offset = 0 ∧
        b.chunkCount = 0 ∧ b.id < nid) :
      Reach ⟨sb, [], nid, m⟩ []
  | alloc (s : Allocator) (live : List (Ptr × Nat)) (n : Nat) (p : Ptr) (s2 : Allocator)
      (hs : Reach s live) (h : allocate n s = (.ok (some p), s2)) :
      Reach s2 ((p, n) :: live)
  | allocNone (s : Allocator) (live : List (Ptr × Nat)) (n : Nat)
      (r : Except Result (Option Ptr)) (s2 : Allocator)
      (hs : Reach s live) (h : allocate n s = (r, s2)) (hr : ∀ p, r ≠ .ok (some p)) :
      Reach s2 live
  | dealloc (s : Allocator) (live : List (Ptr × Nat)) (a : Ptr × Nat)
      (hs : Reach s live) (ha : a ∈ live) :
      Reach (deallocate a.1 a.2 s) (removeFirst a live)
  | config (s : Allocator) (live : List (Ptr × Nat)) (m2 : MemoryMonitor)
      (hs : Reach s live)
      (hc : m2.ram_consumption = s.monitor.ram_consumption ∧
        m2.mmap_consumption = s.monitor.mmap_consumption) :
      Reach { s with monitor := m2 } live

/-- The allocator invariant tying a state to its live allocations: block
identities are fresh and distinct, block geometry is consistent, every
live allocation lies inside its (committed) owning Block below the bump
offset, per-block occupied-chunk counts agree with the live list, and the
reserved regions of live allocations in the same Block are pairwise
disjoint. -/
structure WfLive (s : Allocator) (live : List (Ptr × Nat)) : Prop where
  ids_lt : ∀ b ∈ blocksOf s, b.id < s.nextId
  ids_nodup : (blocksOf s).Pairwise (fun b1 b2 => b1.id ≠ b2.id)
  geom_le : ∀ b ∈ blocksOf s, b.offset ≤ b.capacity
  geom_meta : ∀ b ∈ blocksOf s, b.committed = true → BLOCK_METADATA_SIZE ≤ b.offset
  geom_uncommitted : ∀ b ∈ blocksOf s, b.committed = false →
    b.offset = 0 ∧ b.chunkCount = 0
  owned_committed : ∀ b ∈ s.owned, b.committed = true
  live_pos : ∀ a ∈ live, 0 < a.2
  live_in : ∀ a ∈ live, ∃ b ∈ blocksOf s, b.id = a.1.blockId ∧ b.committed = true ∧
    BLOCK_METADATA_SIZE + CHUNK_METADATA_SIZE ≤ a.1.addr ∧ chunkEnd a ≤ b.offset
  counts : ∀ b ∈ blocksOf s,
    b.chunkCount = (live.filter (fun a => a.1.blockId == b.id)).length
  disj : live.Pairwise (fun a1 a2 => a1.1.blockId = a2.1.blockId →
    chunkEnd a1 ≤ chunkStart a2 ∨ chunkEnd a2 ≤ chunkStart a1)

/-! ## Helper lemmas -/

theorem findBump_eq_none (size : Nat) (bs : List Block)
    (h : ∀ b ∈ bs, b.can_accommodate size = false) : findBump size bs = none := by
  induction bs with
  | nil => rfl
  | cons b rest ih =>
    have hb : b.can_accommodate size = false := h b (by simp)
    have hrest : findBump size rest = none :=
      ih (fun b2 hb2 => h b2 (by simp [hb2]))
    simp [findBump, hb, hrest]

theorem n_le_size_hint (n : Nat) : n ≤ Chunk.size_hint n := by
  simp only [Chunk.size_hint, alignUp, CHUNK_ALIGN, CHUNK_METADATA_SIZE]
  omega

theorem size_hint_pos (n : Nat) : 0 < Chunk.size_hint n := by
  simp only [Chunk.size_hint, alignUp, CHUNK_ALIGN, CHUNK_METADATA_SIZE]
  omega

theorem block_size_hint_le_target (c : Nat) : Block.size_hint c ≤ target_block_size c := by
  unfold target_block_size
  split
  · exact Nat.le_refl _
  · exact le_min (le_max_left _ _) (Nat.le_of_not_lt (by assumption))

theorem chunk_le_target (n : Nat) : Chunk.size_hint n ≤ target_block_size (Chunk.size_hint n) :=
  le_trans (Nat.le_add_left _ BLOCK_METADATA_SIZE) (block_size_hint_le_target (Chunk.size_hint n))

/-- Characterization of `allocate` when the request is served from a
committed shared Block able to accommodate it. -/
theorem allocate_shared_serve (n : Nat) (s : Allocator) (sb : Block)
    (hsh : s.shared = some sb) (hcm : sb.committed = true) (hn0 : n ≠ 0)
    (hacc : sb.can_accommodate (Chunk.size_hint n) = true) :
    allocate n s = (.ok (some ⟨sb.id, sb.offset + CHUNK_METADATA_SIZE⟩),
      { s with shared := some { sb with offset := sb.offset + Chunk.size_hint n,
                                        chunkCount := sb.chunkCount + 1 } }) := by
  simp [allocate, hsh, hcm, hacc, hn0, Block.bump]

/-- Characterization of `allocate` when the shared Block is present but not
yet materialized: it is committed with the step-5a target capacity (funded
by its external owner, not by the MemoryMonitor) and serves the request. -/
theorem allocate_shared_materialize (n : Nat) (s : Allocator) (sb : Block)
    (hsh : s.shared = some sb) (hcm : sb.committed = false) (hn0 : n ≠ 0) :
    allocate n s = (.ok (some ⟨sb.id, BLOCK_METADATA_SIZE + CHUNK_METADATA_SIZE⟩),
      { s with shared := some { sb with committed := true, source := Source.RAM,
                                        capacity := target_block_size (Chunk.size_hint n),
                                        offset := BLOCK_METADATA_SIZE + Chunk.size_hint n,
                                        chunkCount := 1 } }) := by
  simp [allocate, hsh, hcm, hn0, Block.bump, Block.commit]

/-- Characterization of `allocate` when the shared Block cannot serve the
request (absent, or committed and unable to accommodate): the call reduces
to the owned-block scan with new-block fallback. -/
theorem allocate_not_shared (n : Nat) (s : Allocator) (hn0 : n ≠ 0)
    (hsh : s.shared = none ∨ ∃ sb, s.shared = some sb ∧ sb.committed = true ∧
      sb.can_accommodate (Chunk.size_hint n) = false) :
    allocate n s = allocateFromOwned (Chunk.size_hint n) s := by
  rcases hsh with hsh | ⟨sb, hsh, hcm, hacc⟩
  · simp [allocate, hsh, hn0]
  · simp [allocate, hsh, hcm, hacc, hn0]

/-- Characterization of `createBlock` when the RAM pool admits the new
Block. -/
theorem createBlock_ram (size : Nat) (s : Allocator)
    (hadm : s.monitor.ram_consumption + target_block_size size ≤ s.monitor.ram_threshold) :
    createBlock size s = (.ok (some ⟨s.nextId, BLOCK_METADATA_SIZE + CHUNK_METADATA_SIZE⟩),
      { s with owned := { id := s.nextId, committed := true, source := Source.RAM,
                          capacity := target_block_size size,
                          offset := BLOCK_METADATA_SIZE + size, chunkCount := 1 } :: s.owned,
               nextId := s.nextId + 1,
               monitor := { s.monitor with ram_consumption :=
                              s.monitor.ram_consumption + target_block_size size } }) := by
  simp [createBlock, MemoryMonitor.ram_increase, hadm, Block.bump]

/-- Characterization of `createBlock` when RAM refuses, MMAP is enabled and
the MMAP pool admits the new Block. -/
theorem createBlock_mmap (size : Nat) (s : Allocator)
    (hram : s.monitor.ram_threshold < s.monitor.ram_consumption + target_block_size size)
    (hmm : s.monitor.use_mmap = true)
    (hadm : s.monitor.mmap_consumption + target_block_size size ≤ s.monitor.mmap_threshold) :
    createBlock size s = (.ok (some ⟨s.nextId, BLOCK_METADATA_SIZE + CHUNK_METADATA_SIZE⟩),
      { s with owned := { id := s.nextId, committed := true, source := Source.MMAP,
                          capacity := target_block_size size,
                          offset := BLOCK_METADATA_SIZE + size, chunkCount := 1 } :: s.owned,
               nextId := s.nextId + 1,
               monitor := { s.monitor with mmap_consumption :=
                              s.monitor.mmap_consumption + target_block_size size } }) := by
  have hri : s.monitor.ram_increase (target_block_size size) = none := by
    unfold MemoryMonitor.ram_increase
    rw [if_neg (by omega)]
  simp [createBlock, hri, hmm, MemoryMonitor.mmap_increase, hadm, Block.bump]

/-! ## Claim theorems -/

/-- C8: `allocate(0)` always returns null immediately, with no Block
lookup, no MemoryMonitor interaction, no Block creation and no other side
effects (the state is returned unchanged). -/
theorem spec_zero_size_allocation (s : Allocator) : allocate 0 s = (.ok none, s) := rfl

/-- C6: per-pool MemoryMonitor contract — `decrease(n)` returns the counter
value prior to the decrease and leaves the clamped difference in the
counter; `increase(n)` succeeds iff `counter + n ≤ threshold`, returns the
new counter value on success, and performs no mutation on rejection (the
rejected call produces no successor monitor state at all). -/
theorem spec_memory_monitor_contract (m : MemoryMonitor) (n : Nat) :
    ((m.ram_decrease n).1 = m.ram_consumption ∧
      (m.ram_decrease n).2.ram_consumption = m.ram_consumption - n ∧
      (m.mmap_decrease n).1 = m.mmap_consumption ∧
      (m.mmap_decrease n).2.mmap_consumption = m.mmap_consumption - n) ∧
    ((m.ram_increase n).isSome ↔ m.ram_consumption + n ≤ m.ram_threshold) ∧
    ((m.mmap_increase n).isSome ↔ m.mmap_consumption + n ≤ m.mmap_threshold) ∧
    (∀ v m2, m.ram_increase n = some (v, m2) →
      v = m.ram_consumption + n ∧
      m2 = { m with ram_consumption := m.ram_consumption + n }) ∧
    (∀ v m2, m.mmap_increase n = some (v, m2) →
      v = m.mmap_consumption + n ∧
      m2 = { m with mmap_consumption := m.mmap_consumption + n }) := by
  refine ⟨⟨rfl, rfl, rfl, rfl⟩, ?_, ?_, ?_, ?_⟩
  · unfold MemoryMonitor.ram_increase
    split <;> simp_all
  · unfold MemoryMonitor.mmap_increase
    split <;> simp_all
  · intro v m2 h
    unfold MemoryMonitor.ram_increase at h
    split at h
    · obtain ⟨h1, h2⟩ := Prod.mk.injEq .. ▸ (Option.some.injEq .. ▸ h)
      subst h1
      exact ⟨rfl, h2.symm⟩
    · exact absurd h (by simp)
  · intro v m2 h
    unfold MemoryMonitor.mmap_increase at h
    split at h
    · obtain ⟨h1, h2⟩ := Prod.mk.injEq .. ▸ (Option.some.injEq .. ▸ h)
      subst h1
      exact ⟨rfl, h2.symm⟩
    · exact absurd h (by simp)

/-- Closed instance of `spec_memory_monitor_contract` at a concrete monitor
and amount. -/
theorem spec_memory_monitor_contract_witness :
    (let m : MemoryMonitor := ⟨100, 150, 10, 20, true⟩
     ((m.ram_decrease 30).1 = m.ram_consumption ∧
       (m.ram_decrease 30).2.ram_consumption = m.ram_consumption - 30 ∧
       (m.mmap_decrease 30).1 = m.mmap_consumption ∧
       (m.mmap_decrease 30).2.mmap_consumption = m.mmap_consumption - 30) ∧
     ((m.ram_increase 30).isSome ↔ m.ram_consumption + 30 ≤ m.ram_threshold) ∧
     ((m.mmap_increase 30).isSome ↔ m.mmap_consumption + 30 ≤ m.mmap_threshold) ∧
     (∀ v m2, m.ram_increase 30 = some (v, m2) →
       v = m.ram_consumption + 30 ∧
       m2 = { m with ram_consumption := m.ram_consumption + 30 }) ∧
     (∀ v m2, m.mmap_increase 30 = some (v, m2) →
       v = m.mmap_consumption + 30 ∧
       m2 = { m with mmap_consumption := m.mmap_consumption + 30 })) :=
  spec_memory_monitor_contract ⟨100, 150, 10, 20, true⟩ 30

/-- C1: when no shared Block is present, no owned Block can satisfy the
request, RAM admission fails for the required new Block and MMAP is either
disabled or also fails admission, `allocate(n)` with `n > 0` fails with
`RECORD_FILE_FULL` and the whole allocator state — both consumption
counters and the block lists included — is exactly what it was before. -/
theorem spec_out_of_space_is_side_effect_free (n : Nat) (s : Allocator)
    (hsh : s.shared = none)
    (how : ∀ b ∈ s.owned, b.can_accommodate (Chunk.size_hint n) = false)
    (hn : 0 < n)
    (hram : s.monitor.ram_threshold <
      s.monitor.ram_consumption + target_block_size (Chunk.size_hint n))
    (hmm : s.monitor.use_mmap = false ∨
      s.monitor.mmap_threshold <
        s.monitor.mmap_consumption + target_block_size (Chunk.size_hint n)) :
    allocate n s = (.error .RECORD_FILE_FULL, s) := by
  have hn0 : n ≠ 0 := Nat.pos_iff_ne_zero.mp hn
  have hfind : findBump (Chunk.size_hint n) s.owned = none :=
    findBump_eq_none _ _ how
  have hri : s.monitor.ram_increase (target_block_size (Chunk.size_hint n)) = none := by
    unfold MemoryMonitor.ram_increase
    rw [if_neg (by omega)]
  rcases hmm with hmm | hmm
  · simp [allocate, allocateFromOwned, createBlock, hsh, hfind, hri, hn0, hmm]
  · have hmi : s.monitor.mmap_increase (target_block_size (Chunk.size_hint n)) = none := by
      unfold MemoryMonitor.mmap_increase
      rw [if_neg (by omega)]
    simp only [allocate, allocateFromOwned, createBlock, hsh, hfind, hri, hmi,
      if_neg hn0]
    split <;> rfl

/-- Closed instance of `spec_out_of_space_is_side_effect_free`: the
budget-exhaustion matrix row (RAM = 1 MiB, MMAP = 2 MiB, MMAP disabled,
request = 1 MiB + 1) fails with `RECORD_FILE_FULL` and leaves both
counters at 0. -/
theorem spec_out_of_space_is_side_effect_free_witness :
    allocate (one_MiB + 1) ⟨none, [], 0, ⟨0, one_MiB, 0, 2 * one_MiB, false⟩⟩ =
      (.error .RECORD_FILE_FULL, ⟨none, [], 0, ⟨0, one_MiB, 0, 2 * one_MiB, false⟩⟩) :=
  spec_out_of_space_is_side_effect_free (one_MiB + 1)
    ⟨none, [], 0, ⟨0, one_MiB, 0, 2 * one_MiB, false⟩⟩
    rfl (by simp) (by decide) (by decide) (Or.inl rfl)

/-- C7: starting from a caller-supplied, still-empty shared Block,
`allocate(n)` (the test uses n = 16) followed by `deallocate` of that chunk
leaves the shared Block non-empty — the allocator never physically
releases it (it stays committed) — and only an explicit `destroy()` call
makes `is_empty()` report true again. -/
theorem spec_shared_block_retention (n : Nat) (s : Allocator) (sb : Block)
    (hsh : s.shared = some sb) (hcm : sb.committed = false) (hn : 0 < n) :
    ∃ p s2 sb2, allocate n s = (.ok (some p), s2) ∧ s2.shared = some sb2 ∧
      sb2.is_empty = false ∧
      ∃ sb3, (deallocate p n s2).shared = some sb3 ∧
        sb3.is_empty = false ∧ sb3.committed = true ∧ sb3.destroy.is_empty = true := by
  have hn0 : n ≠ 0 := Nat.pos_iff_ne_zero.mp hn
  refine ⟨_, _, _, allocate_shared_materialize n s sb hsh hcm hn0, rfl, ?_, ?_⟩
  · simp [Block.is_empty, BLOCK_METADATA_SIZE]
  · refine ⟨{ sb with committed := true, source := Source.RAM,
                      capacity := target_block_size (Chunk.size_hint n),
                      offset := BLOCK_METADATA_SIZE, chunkCount := 0 }, ?_, ?_, rfl, ?_⟩
    · simp [deallocate, Block.deallocateChunk, BLOCK_METADATA_SIZE, CHUNK_METADATA_SIZE]
    · simp [Block.is_empty, BLOCK_METADATA_SIZE]
    · simp [Block.destroy, Block.is_empty]

/-- Closed instance of `spec_shared_block_retention` at the unit test's
scenario: a default shared Block and `allocate(16)`. -/
theorem spec_shared_block_retention_witness :
    ∃ p s2 sb2,
      allocate 16 ⟨some ⟨0, false, Source.RAM, 0, 0, 0⟩, [], 1, ⟨0, one_MiB, 0, one_MiB, true⟩⟩ =
        (.ok (some p), s2) ∧ s2.shared = some sb2 ∧
      sb2.is_empty = false ∧
      ∃ sb3, (deallocate p 16 s2).shared = some sb3 ∧
        sb3.is_empty = false ∧ sb3.committed = true ∧ sb3.destroy.is_empty = true :=
  spec_shared_block_retention 16
    ⟨some ⟨0, false, Source.RAM, 0, 0, 0⟩, [], 1, ⟨0, one_MiB, 0, one_MiB, true⟩⟩
    ⟨0, false, Source.RAM, 0, 0, 0⟩ rfl rfl (by decide)

/-- C4: if the chunk deallocated is its Block's current rightmost chunk
(here: in a committed shared Block), the Block's bump offset is retracted
by the chunk's reserved size, and a subsequent `allocate` of the same size
is served from the same Block (identity-equal, at the same address) with
no new Block created — even when the Block had no remaining capacity
before the deallocation. -/
theorem spec_rightmost_chunk_reuse (n : Nat) (s : Allocator) (sb : Block) (p : Ptr)
    (hsh : s.shared = some sb) (hcm : sb.committed = true)
    (hoc : sb.offset ≤ sb.capacity)
    (hid : p.blockId = sb.id)
    (haddr : CHUNK_METADATA_SIZE ≤ p.addr)
    (hrm : (p.addr - CHUNK_METADATA_SIZE) + Chunk.size_hint n = sb.offset)
    (hn : 0 < n) :
    ∃ sb2, (deallocate p n s).shared = some sb2 ∧
      sb2.offset + Chunk.size_hint n = sb.offset ∧
      allocate n (deallocate p n s) =
        (.ok (some ⟨sb.id, p.addr⟩),
         { s with shared := some { sb2 with offset := sb.offset,
                                            chunkCount := sb2.chunkCount + 1 } }) := by
  have hn0 : n ≠ 0 := Nat.pos_iff_ne_zero.mp hn
  have hd : deallocate p n s =
      { s with shared := some { sb with offset := p.addr - CHUNK_METADATA_SIZE,
                                        chunkCount := sb.chunkCount - 1 } } := by
    simp only [deallocate, hsh]
    rw [if_pos hid.symm]
    simp [Block.deallocateChunk, hrm]
  refine ⟨_, by rw [hd], by simpa using hrm, ?_⟩
  rw [hd]
  have hacc : Block.can_accommodate
      { sb with offset := p.addr - CHUNK_METADATA_SIZE, chunkCount := sb.chunkCount - 1 }
      (Chunk.size_hint n) = true := by
    simp only [Block.can_accommodate, decide_eq_true_eq]
    omega
  have halloc := allocate_shared_serve n
    { s with shared := some { sb with offset := p.addr - CHUNK_METADATA_SIZE,
                                      chunkCount := sb.chunkCount - 1 } }
    { sb with offset := p.addr - CHUNK_METADATA_SIZE, chunkCount := sb.chunkCount - 1 }
    rfl hcm hn0 hacc
  simp only at halloc
  rw [Nat.sub_add_cancel haddr, hrm] at halloc
  exact halloc

/-- Closed instance of `spec_rightmost_chunk_reuse`: a completely full
1 MiB shared Block (`can_accommodate(1)` false) whose rightmost 16-byte
chunk is deallocated and immediately re-allocated from the same Block. -/
theorem spec_rightmost_chunk_reuse_witness :
    ∃ sb2,
      (deallocate ⟨0, one_MiB - 16⟩ 16
        ⟨some ⟨0, true, Source.RAM, one_MiB, one_MiB, 2⟩, [], 1,
         ⟨0, one_MiB, 0, one_MiB, true⟩⟩).shared = some sb2 ∧
      sb2.offset + Chunk.size_hint 16 = one_MiB ∧
      allocate 16 (deallocate ⟨0, one_MiB - 16⟩ 16
        ⟨some ⟨0, true, Source.RAM, one_MiB, one_MiB, 2⟩, [], 1,
         ⟨0, one_MiB, 0, one_MiB, true⟩⟩) =
        (.ok (some ⟨0, one_MiB - 16⟩),
         { (⟨some ⟨0, true, Source.RAM, one_MiB, one_MiB, 2⟩, [], 1,
            ⟨0, one_MiB, 0, one_MiB, true⟩⟩ : Allocator) with
             shared := some { sb2 with offset := one_MiB,
                                       chunkCount := sb2.chunkCount + 1 } }) :=
  spec_rightmost_chunk_reuse 16
    ⟨some ⟨0, true, Source.RAM, one_MiB, one_MiB, 2⟩, [], 1, ⟨0, one_MiB, 0, one_MiB, true⟩⟩
    ⟨0, true, Source.RAM, one_MiB, one_MiB, 2⟩ ⟨0, one_MiB - 16⟩
    rfl rfl (by decide) rfl (by decide) (by decide) (by decide)

/-- C2: when the shared Block is full (`can_accommodate` fails for the
request) and no owned Block exists, `allocate(n)` with `n > 0` serves the
request from a newly created non-shared Block whose identity differs from
the shared Block's; while that chunk is live, RAM consumption is at least
the allocation's reserved size, and immediately after deallocating it (the
non-shared Block becoming empty and being destroyed) RAM consumption
returns to exactly 0. -/
theorem spec_spillover_accounting (n : Nat) (s : Allocator) (sb : Block)
    (hsh : s.shared = some sb) (hcm : sb.committed = true)
    (hfull : sb.can_accommodate (Chunk.size_hint n) = false)
    (how : s.owned = [])
    (hn : 0 < n)
    (hram0 : s.monitor.ram_consumption = 0)
    (hadm : target_block_size (Chunk.size_hint n) ≤ s.monitor.ram_threshold)
    (hid : sb.id ≠ s.nextId) :
    ∃ p s2, allocate n s = (.ok (some p), s2) ∧
      p.blockId = s.nextId ∧ p.blockId ≠ sb.id ∧
      s2.shared = s.shared ∧
      Chunk.size_hint n ≤ s2.monitor.ram_consumption ∧
      (deallocate p n s2).monitor.ram_consumption = 0 := by
  have hn0 : n ≠ 0 := Nat.pos_iff_ne_zero.mp hn
  have hred : allocate n s = allocateFromOwned (Chunk.size_hint n) s :=
    allocate_not_shared n s hn0 (Or.inr ⟨sb, hsh, hcm, hfull⟩)
  have hfind : findBump (Chunk.size_hint n) s.owned = none := by
    rw [how]; rfl
  have hcreate := createBlock_ram (Chunk.size_hint n) s (by omega)
  have h2 : allocateFromOwned (Chunk.size_hint n) s = createBlock (Chunk.size_hint n) s := by
    unfold allocateFromOwned
    rw [hfind]
  have halloc := (hred.trans h2).trans hcreate
  refine ⟨_, _, halloc, rfl, ?_, rfl, ?_, ?_⟩
  · simpa using fun h => hid h.symm
  · show Chunk.size_hint n ≤ s.monitor.ram_consumption + target_block_size (Chunk.size_hint n)
    have := chunk_le_target n
    omega
  · simp only [deallocate, hsh, how]
    rw [if_neg hid]
    simp [deallocInOwned, Block.deallocateChunk, MemoryMonitor.decrease_for,
      MemoryMonitor.ram_decrease, hram0]

/-- Closed instance of `spec_spillover_accounting` at the unit test's
scenario: a full shared Block (materialized for a 1 MiB + 256 byte
request) followed by a 2 KiB allocation that spills into a fresh
RAM-funded Block, whose deallocation drops RAM consumption back to 0. -/
theorem spec_spillover_accounting_witness :
    ∃ p s2,
      allocate 2048
        ⟨some ⟨0, true, Source.RAM, 1048848, 1048848, 1⟩, [], 1,
         ⟨0, 1073741824, 0, 1073741824, true⟩⟩ = (.ok (some p), s2) ∧
      p.blockId = 1 ∧ p.blockId ≠ 0 ∧
      s2.shared = (⟨some ⟨0, true, Source.RAM, 1048848, 1048848, 1⟩, [], 1,
         ⟨0, 1073741824, 0, 1073741824, true⟩⟩ : Allocator).shared ∧
      Chunk.size_hint 2048 ≤ s2.monitor.ram_consumption ∧
      (deallocate p 2048 s2).monitor.ram_consumption = 0 :=
  spec_spillover_accounting 2048
    ⟨some ⟨0, true, Source.RAM, 1048848, 1048848, 1⟩, [], 1,
     ⟨0, 1073741824, 0, 1073741824, true⟩⟩
    ⟨0, true, Source.RAM, 1048848, 1048848, 1⟩
    rfl rfl (by decide) rfl (by decide) rfl (by decide) (by decide)

/-- C5: when a new Block must be created (no shared Block and no owned
Block can satisfy the request), funding is attempted from RAM first and
from MMAP only if RAM refuses and MMAP is enabled: if RAM admits, the new
Block is RAM-backed and MMAP consumption is untouched; if RAM refuses,
MMAP is enabled and MMAP admits, the allocation succeeds with an
MMAP-backed Block, RAM consumption stays unchanged and MMAP consumption
increases by the block's capacity, which is at least the requested size. -/
theorem spec_funding_order_ram_then_mmap (n : Nat) (s : Allocator)
    (hsh : s.shared = none)
    (how : ∀ b ∈ s.owned, b.can_accommodate (Chunk.size_hint n) = false)
    (hn : 0 < n) :
    (s.monitor.ram_consumption + target_block_size (Chunk.size_hint n) ≤
        s.monitor.ram_threshold →
      ∃ p b s2, allocate n s = (.ok (some p), s2) ∧
        s2.owned = b :: s.owned ∧ b.source = Source.RAM ∧ p.blockId = s.nextId ∧
        s2.monitor.ram_consumption =
          s.monitor.ram_consumption + target_block_size (Chunk.size_hint n) ∧
        s2.monitor.mmap_consumption = s.monitor.mmap_consumption ∧
        n ≤ target_block_size (Chunk.size_hint n)) ∧
    (s.monitor.ram_threshold <
        s.monitor.ram_consumption + target_block_size (Chunk.size_hint n) →
      s.monitor.use_mmap = true →
      s.monitor.mmap_consumption + target_block_size (Chunk.size_hint n) ≤
        s.monitor.mmap_threshold →
      ∃ p b s2, allocate n s = (.ok (some p), s2) ∧
        s2.owned = b :: s.owned ∧ b.source = Source.MMAP ∧ p.blockId = s.nextId ∧
        s2.monitor.ram_consumption = s.monitor.ram_consumption ∧
        s2.monitor.mmap_consumption =
          s.monitor.mmap_consumption + target_block_size (Chunk.size_hint n) ∧
        n ≤ target_block_size (Chunk.size_hint n)) := by
  have hn0 : n ≠ 0 := Nat.pos_iff_ne_zero.mp hn
  have hred : allocate n s = allocateFromOwned (Chunk.size_hint n) s :=
    allocate_not_shared n s hn0 (Or.inl hsh)
  have hfind : findBump (Chunk.size_hint n) s.owned = none :=
    findBump_eq_none _ _ how
  have hnle : n ≤ target_block_size (Chunk.size_hint n) :=
    le_trans (n_le_size_hint n) (chunk_le_target n)
  have h2 : allocateFromOwned (Chunk.size_hint n) s = createBlock (Chunk.size_hint n) s := by
    unfold allocateFromOwned
    rw [hfind]
  constructor
  · intro hadm
    have hcreate := createBlock_ram (Chunk.size_hint n) s hadm
    have halloc := (hred.trans h2).trans hcreate
    exact ⟨_, _, _, halloc, rfl, rfl, rfl, rfl, rfl, hnle⟩
  · intro hram hmm hadm
    have hcreate := createBlock_mmap (Chunk.size_hint n) s hram hmm hadm
    have halloc := (hred.trans h2).trans hcreate
    exact ⟨_, _, _, halloc, rfl, rfl, rfl, rfl, rfl, hnle⟩

/-- Closed instance of `spec_funding_order_ram_then_mmap` at the unit
test's matrix row (RAM = 1 MiB, MMAP = 4 MiB, MMAP enabled,
request = 2 MiB): RAM refuses, MMAP funds the Block. -/
theorem spec_funding_order_ram_then_mmap_witness :
    (let s : Allocator := ⟨none, [], 0, ⟨0, one_MiB, 0, 4 * one_MiB, true⟩⟩
     (s.monitor.ram_consumption + target_block_size (Chunk.size_hint (2 * one_MiB)) ≤
         s.monitor.ram_threshold →
       ∃ p b s2, allocate (2 * one_MiB) s = (.ok (some p), s2) ∧
         s2.owned = b :: s.owned ∧ b.source = Source.RAM ∧ p.blockId = s.nextId ∧
         s2.monitor.ram_consumption =
           s.monitor.ram_consumption + target_block_size (Chunk.size_hint (2 * one_MiB)) ∧
         s2.monitor.mmap_consumption = s.monitor.mmap_consumption ∧
         2 * one_MiB ≤ target_block_size (Chunk.size_hint (2 * one_MiB))) ∧
     (s.monitor.ram_threshold <
         s.monitor.ram_consumption + target_block_size (Chunk.size_hint (2 * one_MiB)) →
       s.monitor.use_mmap = true →
       s.monitor.mmap_consumption + target_block_size (Chunk.size_hint (2 * one_MiB)) ≤
         s.monitor.mmap_threshold →
       ∃ p b s2, allocate (2 * one_MiB) s = (.ok (some p), s2) ∧
         s2.owned = b :: s.owned ∧ b.source = Source.MMAP ∧ p.blockId = s.nextId ∧
         s2.monitor.ram_consumption = s.monitor.ram_consumption ∧
         s2.monitor.mmap_consumption =
           s.monitor.mmap_consumption + target_block_size (Chunk.size_hint (2 * one_MiB)) ∧
         2 * one_MiB ≤ target_block_size (Chunk.size_hint (2 * one_MiB)))) :=
  spec_funding_order_ram_then_mmap (2 * one_MiB)
    ⟨none, [], 0, ⟨0, one_MiB, 0, 4 * one_MiB, true⟩⟩ rfl (by simp) (by decide)

/-- C3: for every sequence of allocations that fits in (and is therefore
served from) the committed shared Block, every call succeeds and neither
the RAM nor the MMAP consumption counter of the MemoryMonitor changes (so
both stay exactly 0 when they start at 0), and no owned Block is created:
shared-Block usage is never counted against the global budgets. -/
theorem spec_shared_block_accounting_exemption (ns : List Nat) (s : Allocator) (sb : Block)
    (hsh : s.shared = some sb) (hcm : sb.committed = true)
    (hroom : sb.offset + sumReserved ns ≤ sb.capacity) :
    (allocateSeq ns s).1 = true ∧
    (allocateSeq ns s).2.monitor = s.monitor ∧
    (allocateSeq ns s).2.owned = s.owned := by
  induction ns generalizing s sb with
  | nil => exact ⟨rfl, rfl, rfl⟩
  | cons n rest ih =>
    by_cases hn0 : n = 0
    · subst hn0
      have hrest := ih s sb hsh hcm (by simp [sumReserved] at hroom ⊢; omega)
      simpa only [allocateSeq, allocate] using hrest
    · have hszle : Chunk.size_hint n ≤ sumReserved (n :: rest) := by
        simp [sumReserved]
      have hacc : sb.can_accommodate (Chunk.size_hint n) = true := by
        simp only [Block.can_accommodate, decide_eq_true_eq]
        omega
      have halloc := allocate_shared_serve n s sb hsh hcm hn0 hacc
      have hrest := ih
        { s with shared := some { sb with offset := sb.offset + Chunk.size_hint n,
                                          chunkCount := sb.chunkCount + 1 } }
        { sb with offset := sb.offset + Chunk.size_hint n, chunkCount := sb.chunkCount + 1 }
        rfl hcm (by simp [sumReserved] at hroom ⊢; omega)
      simp only [allocateSeq, halloc]
      exact hrest

/-- Closed instance of `spec_shared_block_accounting_exemption`: two
allocations served from a 1 MiB committed shared Block leave the monitor
(with both counters 0) untouched and create no Block. -/
theorem spec_shared_block_accounting_exemption_witness :
    (allocateSeq [16, 2048]
      ⟨some ⟨0, true, Source.RAM, one_MiB, 8, 0⟩, [], 1, ⟨0, 0, 0, 0, false⟩⟩).1 = true ∧
    (allocateSeq [16, 2048]
      ⟨some ⟨0, true, Source.RAM, one_MiB, 8, 0⟩, [], 1, ⟨0, 0, 0, 0, false⟩⟩).2.monitor =
      (⟨some ⟨0, true, Source.RAM, one_MiB, 8, 0⟩, [], 1,
        ⟨0, 0, 0, 0, false⟩⟩ : Allocator).monitor ∧
    (allocateSeq [16, 2048]
      ⟨some ⟨0, true, Source.RAM, one_MiB, 8, 0⟩, [], 1, ⟨0, 0, 0, 0, false⟩⟩).2.owned =
      (⟨some ⟨0, true, Source.RAM, one_MiB, 8, 0⟩, [], 1,
        ⟨0, 0, 0, 0, false⟩⟩ : Allocator).owned :=
  spec_shared_block_accounting_exemption [16, 2048]
    ⟨some ⟨0, true, Source.RAM, one_MiB, 8, 0⟩, [], 1, ⟨0, 0, 0, 0, false⟩⟩
    ⟨0, true, Source.RAM, one_MiB, 8, 0⟩ rfl rfl (by decide)

theorem findBump_capacities (size : Nat) (bs bs2 : List Block) (p : Ptr)
    (h : findBump size bs = some (p, bs2)) :
    bs2.map (fun b => b.capacity) = bs.map (fun b => b.capacity) := by
  induction bs generalizing bs2 p with
  | nil => exact absurd h (by simp [findBump])
  | cons b rest ih =>
    unfold findBump at h
    by_cases hacc : b.can_accommodate size = true
    · rw [if_pos hacc] at h
      simp only [Option.some.injEq, Prod.mk.injEq] at h
      obtain ⟨h1, h2⟩ := h
      subst h2
      simp [Block.bump]
    · rw [if_neg hacc] at h
      rcases hrec : findBump size rest with _ | pr
      · rw [hrec] at h
        exact absurd h (by simp)
      · obtain ⟨p2, rest2⟩ := pr
        simp only [hrec, Option.some.injEq, Prod.mk.injEq] at h
        obtain ⟨h1, h2⟩ := h
        subst h1
        subst h2
        simp only [List.map_cons]
        rw [ih rest2 p2 hrec]

/-- One `allocate` step under a sufficient RAM budget: the call returns
`.ok`, and either the owned Blocks' capacities and the monitor are
untouched, or exactly one new Block of the step-5a target capacity is
prepended and RAM consumption grows by that capacity. -/
theorem allocate_step_cases (n : Nat) (s : Allocator)
    (hadm : s.monitor.ram_consumption + target_block_size (Chunk.size_hint n) ≤
      s.monitor.ram_threshold) :
    ∃ r s2, allocate n s = (.ok r, s2) ∧
      ((s2.owned.map (fun b => b.capacity) = s.owned.map (fun b => b.capacity) ∧
        s2.monitor = s.monitor) ∨
       (s2.owned.map (fun b => b.capacity) =
          target_block_size (Chunk.size_hint n) :: s.owned.map (fun b => b.capacity) ∧
        s2.monitor.ram_consumption =
          s.monitor.ram_consumption + target_block_size (Chunk.size_hint n) ∧
        s2.monitor.ram_threshold = s.monitor.ram_threshold)) := by
  by_cases hn0 : n = 0
  · subst hn0
    exact ⟨none, s, rfl, Or.inl ⟨rfl, rfl⟩⟩
  · have hfromOwned : ∀ h2 : allocate n s = allocateFromOwned (Chunk.size_hint n) s,
        ∃ r s2, allocate n s = (.ok r, s2) ∧
          ((s2.owned.map (fun b => b.capacity) = s.owned.map (fun b => b.capacity) ∧
            s2.monitor = s.monitor) ∨
           (s2.owned.map (fun b => b.capacity) =
              target_block_size (Chunk.size_hint n) :: s.owned.map (fun b => b.capacity) ∧
            s2.monitor.ram_consumption =
              s.monitor.ram_consumption + target_block_size (Chunk.size_hint n) ∧
            s2.monitor.ram_threshold = s.monitor.ram_threshold)) := by
      intro h2
      unfold allocateFromOwned at h2
      revert h2
      split
      · intro h2
        refine ⟨_, _, h2, Or.inl ⟨?_, rfl⟩⟩
        exact findBump_capacities _ _ _ _ (by assumption)
      · intro h2
        have hcreate := createBlock_ram (Chunk.size_hint n) s hadm
        rw [hcreate] at h2
        exact ⟨_, _, h2, Or.inr ⟨by simp, rfl, rfl⟩⟩
    rcases hshared : s.shared with _ | sb
    · exact hfromOwned (allocate_not_shared n s hn0 (Or.inl hshared))
    · rcases hcm : sb.committed with _ | _
      · have halloc := allocate_shared_materialize n s sb hshared hcm hn0
        exact ⟨_, _, halloc, Or.inl ⟨rfl, rfl⟩⟩
      · rcases hacc : sb.can_accommodate (Chunk.size_hint n) with _ | _
        · exact hfromOwned (allocate_not_shared n s hn0 (Or.inr ⟨sb, hshared, hcm, hacc⟩))
        · have halloc := allocate_shared_serve n s sb hshared hcm hn0 hacc
          exact ⟨_, _, halloc, Or.inl ⟨rfl, rfl⟩⟩

/-- C9: for every sequence of repeated 1 MiB allocations — however long,
so in particular long enough to exceed the maximum block size many times
over — starting from a state whose owned Blocks all respect the cap and
whose RAM budget covers the sequence, every allocation completes without
error and no single self-created Block ever has capacity beyond
`ALLOCATOR_MAX_BLOCK_BYTES`. -/
theorem spec_block_size_cap (ns : List Nat) (s : Allocator)
    (hreq : ∀ r ∈ ns, r = one_MiB)
    (hcap : ∀ b ∈ s.owned, b.capacity ≤ ALLOCATOR_MAX_BLOCK_BYTES)
    (hbud : s.monitor.ram_consumption +
        ns.length * target_block_size (Chunk.size_hint one_MiB) ≤
      s.monitor.ram_threshold) :
    (allocateSeq ns s).1 = true ∧
    ∀ b ∈ (allocateSeq ns s).2.owned, b.capacity ≤ ALLOCATOR_MAX_BLOCK_BYTES := by
  induction ns generalizing s with
  | nil => exact ⟨rfl, hcap⟩
  | cons n rest ih =>
    have hn : n = one_MiB := hreq n (by simp)
    subst hn
    rw [List.length_cons, Nat.succ_mul] at hbud
    obtain ⟨r, s2, halloc, hdisj⟩ := allocate_step_cases one_MiB s (by omega)
    have hcap2 : ∀ b ∈ s2.owned, b.capacity ≤ ALLOCATOR_MAX_BLOCK_BYTES := by
      intro b hb
      rcases hdisj with ⟨hmap, _⟩ | ⟨hmap, _, _⟩
      · have : b.capacity ∈ s.owned.map (fun b => b.capacity) := by
          rw [← hmap]
          exact List.mem_map_of_mem _ hb
        obtain ⟨b0, hb0, he⟩ := List.mem_map.mp this
        exact he ▸ hcap b0 hb0
      · have : b.capacity ∈ target_block_size (Chunk.size_hint one_MiB) ::
            s.owned.map (fun b => b.capacity) := by
          rw [← hmap]
          exact List.mem_map_of_mem _ hb
        rcases List.mem_cons.mp this with he | hmem
        · rw [he]
          decide
        · obtain ⟨b0, hb0, he⟩ := List.mem_map.mp hmem
          exact he ▸ hcap b0 hb0
    have hbud2 : s2.monitor.ram_consumption +
        rest.length * target_block_size (Chunk.size_hint one_MiB) ≤
        s2.monitor.ram_threshold := by
      rcases hdisj with ⟨_, hm⟩ | ⟨_, hm1, hm2⟩
      · rw [hm]
        omega
      · rw [hm1, hm2]
        omega
    have hrest := ih s2 (fun r hr => hreq r (by simp [hr])) hcap2 hbud2
    simp only [allocateSeq, halloc]
    exact hrest

/-- Closed instance of `spec_block_size_cap`: three 1 MiB allocations from
a fresh allocator (each spilling into its own RAM-funded Block) succeed
and every created Block respects the cap. -/
theorem spec_block_size_cap_witness :
    (allocateSeq [one_MiB, one_MiB, one_MiB]
      ⟨none, [], 0, ⟨0, 1073741824, 0, 0, false⟩⟩).1 = true ∧
    ∀ b ∈ (allocateSeq [one_MiB, one_MiB, one_MiB]
      ⟨none, [], 0, ⟨0, 1073741824, 0, 0, false⟩⟩).2.owned,
      b.capacity ≤ ALLOCATOR_MAX_BLOCK_BYTES :=
  spec_block_size_cap [one_MiB, one_MiB, one_MiB]
    ⟨none, [], 0, ⟨0, 1073741824, 0, 0, false⟩⟩
    (by simp) (by simp) (by decide)

theorem add_le_size_hint (n : Nat) : n + CHUNK_METADATA_SIZE ≤ Chunk.size_hint n := by
  simp only [Chunk.size_hint, alignUp, CHUNK_ALIGN, CHUNK_METADATA_SIZE]
  omega

theorem disj_nodup (live : List (Ptr × Nat))
    (h : live.Pairwise (fun a1 a2 => a1.1.blockId = a2.1.blockId →
      chunkEnd a1 ≤ chunkStart a2 ∨ chunkEnd a2 ≤ chunkStart a1)) : live.Nodup := by
  refine h.imp ?_
  intro a b hr he
  subst he
  have hpos := size_hint_pos a.2
  rcases hr rfl with h1 | h1 <;>
    · simp only [chunkEnd] at h1
      omega

theorem removeFirst_sublist (a : Ptr × Nat) (l : List (Ptr × Nat)) :
    List.Sublist (removeFirst a l) l := by
  induction l with
  | nil => simp [removeFirst]
  | cons x rest ih =>
    unfold removeFirst
    split
    · exact List.sublist_cons_self x rest
    · exact ih.cons₂ x

theorem perm_cons_removeFirst (a : Ptr × Nat) (l : List (Ptr × Nat)) (hmem : a ∈ l) :
    List.Perm l (a :: removeFirst a l) := by
  induction l with
  | nil => exact absurd hmem (by simp)
  | cons x rest ih =>
    unfold removeFirst
    split
    · rename_i he
      subst he
      exact List.Perm.refl _
    · rename_i he
      have hmem2 : a ∈ rest := by
        rcases List.mem_cons.mp hmem with h | h
        · exact absurd h.symm he
        · exact h
      exact (List.Perm.cons x (ih hmem2)).trans (List.Perm.swap a x _)


theorem length_filter_removeFirst (a : Ptr × Nat) (live : List (Ptr × Nat))
    (f : Ptr × Nat → Bool) (hmem : a ∈ live) :
    (live.filter f).length =
      ((removeFirst a live).filter f).length + (if f a = true then 1 else 0) := by
  have hp := (perm_cons_removeFirst a live hmem).filter f
  rw [hp.length_eq]
  by_cases hfa : f a = true
  · rw [if_pos hfa, List.filter_cons, if_pos hfa]
    simp
  · rw [if_neg hfa, List.filter_cons, if_neg hfa]
    simp

theorem length_filter_removeFirst_pos (a : Ptr × Nat) (live : List (Ptr × Nat))
    (f : Ptr × Nat → Bool) (hmem : a ∈ live) (hfa : f a = true) :
    (live.filter f).length = ((removeFirst a live).filter f).length + 1 := by
  have h := length_filter_removeFirst a live f hmem
  rw [if_pos hfa] at h
  exact h

theorem length_filter_removeFirst_neg (a : Ptr × Nat) (live : List (Ptr × Nat))
    (f : Ptr × Nat → Bool) (hmem : a ∈ live) (hfa : f a = false) :
    (live.filter f).length = ((removeFirst a live).filter f).length := by
  have h := length_filter_removeFirst a live f hmem
  rw [hfa] at h
  simp only [Bool.false_eq_true, if_false] at h
  omega

theorem findBump_decomp (size : Nat) (bs bs2 : List Block) (p : Ptr)
    (h : findBump size bs = some (p, bs2)) :
    ∃ pre b post, bs = pre ++ b :: post ∧ b.can_accommodate size = true ∧
      p = ⟨b.id, b.offset + CHUNK_METADATA_SIZE⟩ ∧
      bs2 = pre ++ { b with offset := b.offset + size,
                            chunkCount := b.chunkCount + 1 } :: post := by
  induction bs generalizing bs2 p with
  | nil => exact absurd h (by simp [findBump])
  | cons b rest ih =>
    unfold findBump at h
    by_cases hacc : b.can_accommodate size = true
    · rw [if_pos hacc] at h
      simp only [Block.bump, Option.some.injEq, Prod.mk.injEq] at h
      obtain ⟨h1, h2⟩ := h
      exact ⟨[], b, rest, rfl, hacc, h1.symm, h2.symm⟩
    · rw [if_neg hacc] at h
      rcases hrec : findBump size rest with _ | pr
      · rw [hrec] at h
        exact absurd h (by simp)
      · obtain ⟨p2, rest2⟩ := pr
        simp only [hrec, Option.some.injEq, Prod.mk.injEq] at h
        obtain ⟨h1, h2⟩ := h
        subst h1
        subst h2
        obtain ⟨pre, b0, post, hbs, hacc0, hp, hbs2⟩ := ih rest2 p2 hrec
        exact ⟨b :: pre, b0, post, by simp [hbs], hacc0, hp, by simp [hbs2]⟩

theorem deallocInOwned_decomp (p : Ptr) (n : Nat) (m : MemoryMonitor)
    (pre post : List Block) (b : Block)
    (hpre : ∀ b2 ∈ pre, b2.id ≠ p.blockId) (hb : b.id = p.blockId) :
    deallocInOwned p n m (pre ++ b :: post) =
      (if (b.deallocateChunk p.addr n).chunkCount = 0 then
        (pre ++ post,
         m.decrease_for (b.deallocateChunk p.addr n).source
           (b.deallocateChunk p.addr n).capacity)
       else (pre ++ b.deallocateChunk p.addr n :: post, m)) := by
  induction pre with
  | nil =>
    simp only [List.nil_append, deallocInOwned, if_pos hb]
  | cons b1 rest ih =>
    have h1 : b1.id ≠ p.blockId := hpre b1 (by simp)
    simp only [List.cons_append, deallocInOwned, if_neg h1, List.append_eq]
    rw [ih (fun b2 hb2 => hpre b2 (by simp [hb2]))]
    split <;> rfl

theorem createBlock_fail (size : Nat) (s : Allocator)
    (hram : ¬(s.monitor.ram_consumption + target_block_size size ≤
      s.monitor.ram_threshold))
    (hmm : s.monitor.use_mmap = false ∨
      ¬(s.monitor.mmap_consumption + target_block_size size ≤
        s.monitor.mmap_threshold)) :
    createBlock size s = (.error .RECORD_FILE_FULL, s) := by
  have hri : s.monitor.ram_increase (target_block_size size) = none := by
    unfold MemoryMonitor.ram_increase
    rw [if_neg hram]
  rcases hmm with hmm | hmm
  · simp [createBlock, hri, hmm]
  · have hmi : s.monitor.mmap_increase (target_block_size size) = none := by
      unfold MemoryMonitor.mmap_increase
      rw [if_neg hmm]
    simp only [createBlock, hri, hmi]
    split <;> rfl

theorem not_mem_removeFirst_of_nodup (a : Ptr × Nat) (l : List (Ptr × Nat))
    (hnd : l.Nodup) : a ∉ removeFirst a l := by
  induction l with
  | nil => simp [removeFirst]
  | cons x rest ih =>
    rcases List.nodup_cons.mp hnd with ⟨hx, hrest⟩
    unfold removeFirst
    split
    · rename_i he
      subst he
      exact hx
    · rename_i he
      intro hmem
      rcases List.mem_cons.mp hmem with h | h
      · exact he h.symm
      · exact ih hrest h

theorem pairwise_ids_unique (l : List Block)
    (hp : l.Pairwise (fun b1 b2 => b1.id ≠ b2.id)) :
    ∀ b1 ∈ l, ∀ b2 ∈ l, b1.id = b2.id → b1 = b2 := by
  induction l with
  | nil => simp
  | cons x rest ih =>
    rcases List.pairwise_cons.mp hp with ⟨hx, hrest⟩
    intro b1 h1 b2 h2 hid
    rcases List.mem_cons.mp h1 with he1 | hm1 <;> rcases List.mem_cons.mp h2 with he2 | hm2
    · rw [he1, he2]
    · subst he1
      exact absurd hid (hx b2 hm2)
    · subst he2
      exact absurd hid.symm (hx b1 hm1)
    · exact ih hrest b1 hm1 b2 hm2 hid

theorem disj_forall (live : List (Ptr × Nat))
    (hp : live.Pairwise (fun a1 a2 => a1.1.blockId = a2.1.blockId →
      chunkEnd a1 ≤ chunkStart a2 ∨ chunkEnd a2 ≤ chunkStart a1)) :
    ∀ a1 ∈ live, ∀ a2 ∈ live, a1 ≠ a2 → a1.1.blockId = a2.1.blockId →
      chunkEnd a1 ≤ chunkStart a2 ∨ chunkEnd a2 ≤ chunkStart a1 := by
  induction live with
  | nil => simp
  | cons x rest ih =>
    rcases List.pairwise_cons.mp hp with ⟨hx, hrest⟩
    intro a1 h1 a2 h2 hne hid
    rcases List.mem_cons.mp h1 with he1 | hm1 <;> rcases List.mem_cons.mp h2 with he2 | hm2
    · rw [he1, he2] at hne
      exact absurd rfl hne
    · subst he1
      exact hx a2 hm2 hid
    · subst he2
      rcases hx a1 hm1 hid.symm with h | h
      · exact Or.inr h
      · exact Or.inl h
    · exact ih hrest a1 hm1 a2 hm2 hne hid

theorem filter_id_nil (live : List (Ptr × Nat)) (i : Nat)
    (h : ∀ a ∈ live, a.1.blockId ≠ i) :
    live.filter (fun a => a.1.blockId == i) = [] := by
  induction live with
  | nil => rfl
  | cons x rest ih =>
    have hx : (x.1.blockId == i) = false := by
      simpa using h x (by simp)
    rw [List.filter_cons, hx]
    simp only [Bool.false_eq_true, if_false]
    exact ih (fun a ha => h a (by simp [ha]))

theorem wf_init (sb : Option Block) (nid : Nat) (m : MemoryMonitor)
    (hsb : ∀ b, sb = some b → b.committed = false ∧ b.offset = 0 ∧
      b.chunkCount = 0 ∧ b.id < nid) :
    WfLive ⟨sb, [], nid, m⟩ [] := by
  rcases sb with _ | b
  · constructor <;> simp [blocksOf]
  · obtain ⟨h1, h2, h3, h4⟩ := hsb b rfl
    constructor <;> simp [blocksOf, h1, h2, h3, h4]

theorem wf_config (s : Allocator) (live : List (Ptr × Nat)) (m2 : MemoryMonitor)
    (w : WfLive s live) : WfLive { s with monitor := m2 } live :=
  ⟨w.ids_lt, w.ids_nodup, w.geom_le, w.geom_meta, w.geom_uncommitted, w.owned_committed,
   w.live_pos, w.live_in, w.counts, w.disj⟩

theorem wf_sharedserve (n : Nat) (s : Allocator) (sb : Block) (live : List (Ptr × Nat))
    (w : WfLive s live) (hsh : s.shared = some sb) (hcm : sb.committed = true)
    (hacc : sb.can_accommodate (Chunk.size_hint n) = true) (hn0 : n ≠ 0) :
    WfLive { s with shared := some { sb with offset := sb.offset + Chunk.size_hint n,
                                             chunkCount := sb.chunkCount + 1 } }
      ((⟨sb.id, sb.offset + CHUNK_METADATA_SIZE⟩, n) :: live) := by
  have hbs : blocksOf s = sb :: s.owned := by simp [blocksOf, hsh]
  have hroom : Chunk.size_hint n ≤ sb.capacity - sb.offset := by
    simpa [Block.can_accommodate] using hacc
  have hsbmem : sb ∈ blocksOf s := by
    rw [hbs]
    exact List.mem_cons_self sb s.owned
  have hle : sb.offset ≤ sb.capacity := w.geom_le sb hsbmem
  have hmeta : BLOCK_METADATA_SIZE ≤ sb.offset := w.geom_meta sb hsbmem hcm
  have hownedids : ∀ b ∈ s.owned, sb.id ≠ b.id :=
    (List.pairwise_cons.mp (hbs ▸ w.ids_nodup)).1
  have hlive_sb : ∀ a ∈ live, a.1.blockId = sb.id →
      chunkEnd a ≤ sb.offset := by
    intro a ha hid
    obtain ⟨b0, hb0, hid0, _, _, hend⟩ := w.live_in a ha
    have : b0 = sb := pairwise_ids_unique _ w.ids_nodup b0 hb0 sb hsbmem (by rw [hid0, hid])
    exact this ▸ hend
  refine ⟨?_, ?_, ?_, ?_, ?_, ?_, ?_, ?_, ?_, ?_⟩
  · show ∀ b ∈ _ :: s.owned, b.id < s.nextId
    rw [List.forall_mem_cons]
    exact ⟨w.ids_lt sb hsbmem, fun b hb => w.ids_lt b (by rw [hbs]; simp [hb])⟩
  · show List.Pairwise _ (_ :: s.owned)
    rw [List.pairwise_cons]
    exact ⟨fun b hb => hownedids b hb, (List.pairwise_cons.mp (hbs ▸ w.ids_nodup)).2⟩
  · show ∀ b ∈ _ :: s.owned, b.offset ≤ b.capacity
    rw [List.forall_mem_cons]
    refine ⟨?_, fun b hb => w.geom_le b (by rw [hbs]; simp [hb])⟩
    show sb.offset + Chunk.size_hint n ≤ sb.capacity
    omega
  · show ∀ b ∈ _ :: s.owned, b.committed = true → BLOCK_METADATA_SIZE ≤ b.offset
    rw [List.forall_mem_cons]
    refine ⟨fun _ => ?_, fun b hb => w.geom_meta b (by rw [hbs]; simp [hb])⟩
    show BLOCK_METADATA_SIZE ≤ sb.offset + Chunk.size_hint n
    omega
  · show ∀ b ∈ _ :: s.owned, b.committed = false → b.offset = 0 ∧ b.chunkCount = 0
    rw [List.forall_mem_cons]
    refine ⟨fun hf => absurd (hcm ▸ hf) (by simp), fun b hb =>
      w.geom_uncommitted b (by rw [hbs]; simp [hb])⟩
  · exact w.owned_committed
  · rw [List.forall_mem_cons]
    exact ⟨Nat.pos_of_ne_zero hn0, w.live_pos⟩
  · rw [List.forall_mem_cons]
    constructor
    · refine ⟨{ sb with offset := sb.offset + Chunk.size_hint n,
                        chunkCount := sb.chunkCount + 1 },
        by simp [blocksOf], rfl, hcm, ?_, ?_⟩
      · show BLOCK_METADATA_SIZE + CHUNK_METADATA_SIZE ≤ sb.offset + CHUNK_METADATA_SIZE
        omega
      · show chunkEnd (⟨sb.id, sb.offset + CHUNK_METADATA_SIZE⟩, n) ≤
          sb.offset + Chunk.size_hint n
        simp only [chunkEnd, chunkStart]
        omega
    · intro a ha
      obtain ⟨b0, hb0, hid0, hcm0, haddr0, hend0⟩ := w.live_in a ha
      rw [hbs] at hb0
      rcases List.mem_cons.mp hb0 with he | hm
      · refine ⟨{ sb with offset := sb.offset + Chunk.size_hint n,
                          chunkCount := sb.chunkCount + 1 },
          by simp [blocksOf], by rw [← hid0, he], hcm, haddr0, ?_⟩
        show chunkEnd a ≤ sb.offset + Chunk.size_hint n
        rw [he] at hend0
        omega
      · exact ⟨b0, by simp [blocksOf, hm], hid0, hcm0, haddr0, hend0⟩
  · show ∀ b ∈ _ :: s.owned, _
    rw [List.forall_mem_cons]
    constructor
    · show sb.chunkCount + 1 = _
      rw [List.filter_cons]
      simp only [beq_self_eq_true, if_pos]
      rw [List.length_cons, w.counts sb hsbmem]
    · intro b hb
      rw [List.filter_cons]
      have hne : (sb.id == b.id) = false := by
        simpa using hownedids b hb
      simp only [hne, Bool.false_eq_true, if_false]
      exact w.counts b (by rw [hbs]; simp [hb])
  · rw [List.pairwise_cons]
    refine ⟨?_, w.disj⟩
    intro a ha hid
    refine Or.inr ?_
    have := hlive_sb a ha hid.symm
    simp only [chunkStart]
    omega

theorem wf_sharedmaterialize (n : Nat) (s : Allocator) (sb : Block)
    (live : List (Ptr × Nat))
    (w : WfLive s live) (hsh : s.shared = some sb) (hcm : sb.committed = false)
    (hn0 : n ≠ 0) :
    WfLive { s with shared := some { sb with committed := true, source := Source.RAM,
                                             capacity := target_block_size (Chunk.size_hint n),
                                             offset := BLOCK_METADATA_SIZE + Chunk.size_hint n,
                                             chunkCount := 1 } }
      ((⟨sb.id, BLOCK_METADATA_SIZE + CHUNK_METADATA_SIZE⟩, n) :: live) := by
  have hbs : blocksOf s = sb :: s.owned := by simp [blocksOf, hsh]
  have hsbmem : sb ∈ blocksOf s := by
    rw [hbs]
    exact List.mem_cons_self sb s.owned
  have hcnt0 : sb.chunkCount = 0 := (w.geom_uncommitted sb hsbmem hcm).2
  have hcap : BLOCK_METADATA_SIZE + Chunk.size_hint n ≤
      target_block_size (Chunk.size_hint n) := block_size_hint_le_target (Chunk.size_hint n)
  have hownedids : ∀ b ∈ s.owned, sb.id ≠ b.id :=
    (List.pairwise_cons.mp (hbs ▸ w.ids_nodup)).1
  have hfilter0 : (live.filter (fun a => a.1.blockId == sb.id)).length = 0 := by
    rw [← w.counts sb hsbmem, hcnt0]
  have hnolive : ∀ a ∈ live, a.1.blockId ≠ sb.id := by
    intro a ha he
    have hmem : a ∈ live.filter (fun a => a.1.blockId == sb.id) :=
      List.mem_filter.mpr ⟨ha, by simp [he]⟩
    rw [List.length_eq_zero.mp hfilter0] at hmem
    exact absurd hmem (by simp)
  refine ⟨?_, ?_, ?_, ?_, ?_, ?_, ?_, ?_, ?_, ?_⟩
  · show ∀ b ∈ _ :: s.owned, b.id < s.nextId
    rw [List.forall_mem_cons]
    exact ⟨w.ids_lt sb hsbmem, fun b hb => w.ids_lt b (by rw [hbs]; simp [hb])⟩
  · show List.Pairwise _ (_ :: s.owned)
    rw [List.pairwise_cons]
    exact ⟨fun b hb => hownedids b hb, (List.pairwise_cons.mp (hbs ▸ w.ids_nodup)).2⟩
  · show ∀ b ∈ _ :: s.owned, b.offset ≤ b.capacity
    rw [List.forall_mem_cons]
    exact ⟨hcap, fun b hb => w.geom_le b (by rw [hbs]; simp [hb])⟩
  · show ∀ b ∈ _ :: s.owned, b.committed = true → BLOCK_METADATA_SIZE ≤ b.offset
    rw [List.forall_mem_cons]
    refine ⟨fun _ => ?_, fun b hb => w.geom_meta b (by rw [hbs]; simp [hb])⟩
    show BLOCK_METADATA_SIZE ≤ BLOCK_METADATA_SIZE + Chunk.size_hint n
    omega
  · show ∀ b ∈ _ :: s.owned, b.committed = false → b.offset = 0 ∧ b.chunkCount = 0
    rw [List.forall_mem_cons]
    exact ⟨fun hf => absurd hf (by simp), fun b hb =>
      w.geom_uncommitted b (by rw [hbs]; simp [hb])⟩
  · exact w.owned_committed
  · rw [List.forall_mem_cons]
    exact ⟨Nat.pos_of_ne_zero hn0, w.live_pos⟩
  · rw [List.forall_mem_cons]
    constructor
    · refine ⟨{ sb with committed := true, source := Source.RAM,
                        capacity := target_block_size (Chunk.size_hint n),
                        offset := BLOCK_METADATA_SIZE + Chunk.size_hint n,
                        chunkCount := 1 },
        by simp [blocksOf], rfl, rfl, le_refl _, ?_⟩
      show chunkEnd (⟨sb.id, BLOCK_METADATA_SIZE + CHUNK_METADATA_SIZE⟩, n) ≤
        BLOCK_METADATA_SIZE + Chunk.size_hint n
      simp only [chunkEnd, chunkStart]
      omega
    · intro a ha
      obtain ⟨b0, hb0, hid0, hcm0, haddr0, hend0⟩ := w.live_in a ha
      rw [hbs] at hb0
      rcases List.mem_cons.mp hb0 with he | hm
      · exact absurd (he ▸ hid0).symm (hnolive a ha)
      · exact ⟨b0, by simp [blocksOf, hm], hid0, hcm0, haddr0, hend0⟩
  · show ∀ b ∈ _ :: s.owned, _
    rw [List.forall_mem_cons]
    constructor
    · show 1 = _
      rw [List.filter_cons]
      simp only [beq_self_eq_true, if_pos]
      rw [List.length_cons, hfilter0]
    · intro b hb
      rw [List.filter_cons]
      have hne : (sb.id == b.id) = false := by
        simpa using hownedids b hb
      simp only [hne, Bool.false_eq_true, if_false]
      exact w.counts b (by rw [hbs]; simp [hb])
  · rw [List.pairwise_cons]
    refine ⟨?_, w.disj⟩
    intro a ha hid
    exact absurd hid.symm (hnolive a ha)

theorem pairwise_ne_middle (l1 l2 l3 : List Block) (b : Block)
    (hp : (l1 ++ (l2 ++ b :: l3)).Pairwise (fun b1 b2 => b1.id ≠ b2.id)) :
    ∀ b2 ∈ l1 ++ (l2 ++ l3), b2.id ≠ b.id := by
  rcases List.pairwise_append.mp hp with ⟨hp1, hp23, hcross⟩
  rcases List.pairwise_append.mp hp23 with ⟨hp2, hpb3, hcross2⟩
  rcases List.pairwise_cons.mp hpb3 with ⟨hb3, hp3⟩
  intro b2 hb2
  rcases List.mem_append.mp hb2 with h | h
  · exact hcross b2 h b (by simp)
  · rcases List.mem_append.mp h with h | h
    · exact hcross2 b2 h b (by simp)
    · intro he
      exact (hb3 b2 h) he.symm

theorem mem_middle_insert (l1 l2 l3 : List Block) (b b2 : Block)
    (h : b2 ∈ l1 ++ (l2 ++ l3)) : b2 ∈ l1 ++ (l2 ++ b :: l3) := by
  simp only [List.mem_append, List.mem_cons] at h ⊢
  tauto

theorem mem_middle_cases (l1 l2 l3 : List Block) (b b2 : Block)
    (h : b2 ∈ l1 ++ (l2 ++ b :: l3)) : b2 = b ∨ b2 ∈ l1 ++ (l2 ++ l3) := by
  simp only [List.mem_append, List.mem_cons] at h ⊢
  tauto

theorem pairwise_ids_middle_replace (l1 l2 l3 : List Block) (b bB : Block)
    (hid : bB.id = b.id)
    (hp : (l1 ++ (l2 ++ b :: l3)).Pairwise (fun b1 b2 => b1.id ≠ b2.id)) :
    (l1 ++ (l2 ++ bB :: l3)).Pairwise (fun b1 b2 => b1.id ≠ b2.id) := by
  have h1 := List.pairwise_map.mpr hp
  have hmapeq : (l1 ++ (l2 ++ bB :: l3)).map (fun x => x.id) =
      (l1 ++ (l2 ++ b :: l3)).map (fun x => x.id) := by
    simp [hid]
  exact List.pairwise_map.mp (hmapeq ▸ h1)

theorem wf_ownedbump (n : Nat) (s : Allocator) (pre post : List Block) (b : Block)
    (live : List (Ptr × Nat))
    (w : WfLive s live)
    (hdec : s.owned = pre ++ b :: post)
    (hacc : b.can_accommodate (Chunk.size_hint n) = true)
    (hn0 : n ≠ 0) :
    WfLive { s with owned := pre ++ { b with offset := b.offset + Chunk.size_hint n,
                                             chunkCount := b.chunkCount + 1 } :: post }
      ((⟨b.id, b.offset + CHUNK_METADATA_SIZE⟩, n) :: live) := by
  have hbmem_owned : b ∈ s.owned := by
    rw [hdec]
    simp
  have hbmem : b ∈ blocksOf s := by simp [blocksOf, hbmem_owned]
  have hcm : b.committed = true := w.owned_committed b hbmem_owned
  have hbs : blocksOf s = s.shared.toList ++ (pre ++ b :: post) := by
    simp [blocksOf, hdec]
  have hroom : Chunk.size_hint n ≤ b.capacity - b.offset := by
    simpa [Block.can_accommodate] using hacc
  have hle : b.offset ≤ b.capacity := w.geom_le b hbmem
  have hmeta : BLOCK_METADATA_SIZE ≤ b.offset := w.geom_meta b hbmem hcm
  have hne_mid := pairwise_ne_middle s.shared.toList pre post b (hbs ▸ w.ids_nodup)
  have hlive_b : ∀ a ∈ live, a.1.blockId = b.id → chunkEnd a ≤ b.offset := by
    intro a ha hid
    obtain ⟨b0, hb0, hid0, _, _, hend⟩ := w.live_in a ha
    have : b0 = b := pairwise_ids_unique _ w.ids_nodup b0 hb0 b hbmem (by rw [hid0, hid])
    exact this ▸ hend
  refine ⟨?_, ?_, ?_, ?_, ?_, ?_, ?_, ?_, ?_, ?_⟩
  · show ∀ b2 ∈ s.shared.toList ++ (pre ++ _ :: post), b2.id < s.nextId
    intro b2 hb2
    rcases mem_middle_cases _ _ _ _ _ hb2 with he | hm
    · rw [he]
      exact w.ids_lt b hbmem
    · exact w.ids_lt b2 (by rw [hbs]; exact mem_middle_insert _ _ _ _ _ hm)
  · show List.Pairwise _ (s.shared.toList ++ (pre ++ _ :: post))
    have hpw := w.ids_nodup
    rw [hbs] at hpw
    exact pairwise_ids_middle_replace s.shared.toList pre post b _ rfl hpw
  · show ∀ b2 ∈ s.shared.toList ++ (pre ++ _ :: post), b2.offset ≤ b2.capacity
    intro b2 hb2
    rcases mem_middle_cases _ _ _ _ _ hb2 with he | hm
    · rw [he]
      show b.offset + Chunk.size_hint n ≤ b.capacity
      omega
    · exact w.geom_le b2 (by rw [hbs]; exact mem_middle_insert _ _ _ _ _ hm)
  · show ∀ b2 ∈ s.shared.toList ++ (pre ++ _ :: post), b2.committed = true →
      BLOCK_METADATA_SIZE ≤ b2.offset
    intro b2 hb2 hcm2
    rcases mem_middle_cases _ _ _ _ _ hb2 with he | hm
    · rw [he]
      show BLOCK_METADATA_SIZE ≤ b.offset + Chunk.size_hint n
      omega
    · exact w.geom_meta b2 (by rw [hbs]; exact mem_middle_insert _ _ _ _ _ hm) hcm2
  · show ∀ b2 ∈ s.shared.toList ++ (pre ++ _ :: post), b2.committed = false →
      b2.offset = 0 ∧ b2.chunkCount = 0
    intro b2 hb2 hcm2
    rcases mem_middle_cases _ _ _ _ _ hb2 with he | hm
    · rw [he] at hcm2
      exact absurd (hcm ▸ hcm2) (by simp)
    · exact w.geom_uncommitted b2 (by rw [hbs]; exact mem_middle_insert _ _ _ _ _ hm) hcm2
  · show ∀ b2 ∈ pre ++ _ :: post, b2.committed = true
    intro b2 hb2
    rcases List.mem_append.mp hb2 with h | h
    · exact w.owned_committed b2 (by rw [hdec]; simp [h])
    · rcases List.mem_cons.mp h with he | hm
      · rw [he]
        exact hcm
      · exact w.owned_committed b2 (by rw [hdec]; simp [hm])
  · rw [List.forall_mem_cons]
    exact ⟨Nat.pos_of_ne_zero hn0, w.live_pos⟩
  · rw [List.forall_mem_cons]
    constructor
    · refine ⟨{ b with offset := b.offset + Chunk.size_hint n,
                       chunkCount := b.chunkCount + 1 },
        by simp [blocksOf], rfl, hcm, ?_, ?_⟩
      · show BLOCK_METADATA_SIZE + CHUNK_METADATA_SIZE ≤ b.offset + CHUNK_METADATA_SIZE
        omega
      · show chunkEnd (⟨b.id, b.offset + CHUNK_METADATA_SIZE⟩, n) ≤
          b.offset + Chunk.size_hint n
        simp only [chunkEnd, chunkStart]
        omega
    · intro a ha
      obtain ⟨b0, hb0, hid0, hcm0, haddr0, hend0⟩ := w.live_in a ha
      rw [hbs] at hb0
      rcases mem_middle_cases _ _ _ _ _ hb0 with he | hm
      · refine ⟨{ b with offset := b.offset + Chunk.size_hint n,
                         chunkCount := b.chunkCount + 1 },
          by simp [blocksOf], by rw [← hid0, he], hcm, haddr0, ?_⟩
        show chunkEnd a ≤ b.offset + Chunk.size_hint n
        rw [he] at hend0
        omega
      · exact ⟨b0, mem_middle_insert _ _ _ _ _ hm, hid0, hcm0, haddr0, hend0⟩
  · show ∀ b2 ∈ s.shared.toList ++ (pre ++ _ :: post), _
    intro b2 hb2
    rcases mem_middle_cases _ _ _ _ _ hb2 with he | hm
    · rw [he]
      show b.chunkCount + 1 = _
      rw [List.filter_cons]
      simp only [beq_self_eq_true, if_pos]
      rw [List.length_cons, w.counts b hbmem]
    · rw [List.filter_cons]
      have hne : (b.id == b2.id) = false := by
        simpa using (hne_mid b2 hm).symm
      simp only [hne, Bool.false_eq_true, if_false]
      exact w.counts b2 (by rw [hbs]; exact mem_middle_insert _ _ _ _ _ hm)
  · rw [List.pairwise_cons]
    refine ⟨?_, w.disj⟩
    intro a ha hid
    refine Or.inr ?_
    have := hlive_b a ha hid.symm
    simp only [chunkStart]
    omega

theorem wf_newblock (n : Nat) (s : Allocator) (live : List (Ptr × Nat)) (src : Source)
    (m2 : MemoryMonitor)
    (w : WfLive s live) (hn0 : n ≠ 0) :
    WfLive { s with owned := (⟨s.nextId, true, src, target_block_size (Chunk.size_hint n),
                               BLOCK_METADATA_SIZE + Chunk.size_hint n, 1⟩ : Block) :: s.owned,
                    nextId := s.nextId + 1, monitor := m2 }
      ((⟨s.nextId, BLOCK_METADATA_SIZE + CHUNK_METADATA_SIZE⟩, n) :: live) := by
  have hfresh : ∀ b2 ∈ blocksOf s, b2.id ≠ s.nextId :=
    fun b2 hb2 => Nat.ne_of_lt (w.ids_lt b2 hb2)
  have hnolive : ∀ a ∈ live, a.1.blockId ≠ s.nextId := by
    intro a ha
    obtain ⟨b0, hb0, hid0, _⟩ := w.live_in a ha
    rw [← hid0]
    exact hfresh b0 hb0
  have hcap : BLOCK_METADATA_SIZE + Chunk.size_hint n ≤
      target_block_size (Chunk.size_hint n) := block_size_hint_le_target (Chunk.size_hint n)
  have hmem_cases : ∀ b2 : Block,
      b2 ∈ s.shared.toList ++
        ((⟨s.nextId, true, src, target_block_size (Chunk.size_hint n),
           BLOCK_METADATA_SIZE + Chunk.size_hint n, 1⟩ : Block) :: s.owned) →
      b2 = (⟨s.nextId, true, src, target_block_size (Chunk.size_hint n),
            BLOCK_METADATA_SIZE + Chunk.size_hint n, 1⟩ : Block) ∨
      b2 ∈ blocksOf s := by
    intro b2 hb2
    simp only [blocksOf, List.mem_append, List.mem_cons] at hb2 ⊢
    tauto
  refine ⟨?_, ?_, ?_, ?_, ?_, ?_, ?_, ?_, ?_, ?_⟩
  · intro b2 hb2
    rcases hmem_cases b2 hb2 with he | hm
    · rw [he]
      show s.nextId < s.nextId + 1
      omega
    · have := w.ids_lt b2 hm
      show b2.id < s.nextId + 1
      omega
  · show List.Pairwise _ (s.shared.toList ++ (_ :: s.owned))
    rcases List.pairwise_append.mp w.ids_nodup with ⟨hp1, hpo, hcross⟩
    rw [List.pairwise_append]
    refine ⟨hp1, ?_, ?_⟩
    · rw [List.pairwise_cons]
      refine ⟨?_, hpo⟩
      intro b2 hb2
      show s.nextId ≠ b2.id
      exact fun he => hfresh b2 (by simp [blocksOf, hb2]) he.symm
    · intro a1 ha1 b2 hb2
      rcases List.mem_cons.mp hb2 with he | hm
      · rw [he]
        show a1.id ≠ s.nextId
        exact hfresh a1 (by simp [blocksOf, ha1])
      · exact hcross a1 ha1 b2 hm
  · intro b2 hb2
    rcases hmem_cases b2 hb2 with he | hm
    · rw [he]
      exact hcap
    · exact w.geom_le b2 hm
  · intro b2 hb2 hcm2
    rcases hmem_cases b2 hb2 with he | hm
    · rw [he]
      show BLOCK_METADATA_SIZE ≤ BLOCK_METADATA_SIZE + Chunk.size_hint n
      omega
    · exact w.geom_meta b2 hm hcm2
  · intro b2 hb2 hcm2
    rcases hmem_cases b2 hb2 with he | hm
    · rw [he] at hcm2
      exact absurd hcm2 (by simp)
    · exact w.geom_uncommitted b2 hm hcm2
  · rw [List.forall_mem_cons]
    exact ⟨rfl, w.owned_committed⟩
  · rw [List.forall_mem_cons]
    exact ⟨Nat.pos_of_ne_zero hn0, w.live_pos⟩
  · rw [List.forall_mem_cons]
    constructor
    · refine ⟨{ id := s.nextId, committed := true, source := src,
                capacity := target_block_size (Chunk.size_hint n),
                offset := BLOCK_METADATA_SIZE + Chunk.size_hint n, chunkCount := 1 },
        by simp [blocksOf], rfl, rfl, le_refl _, ?_⟩
      show chunkEnd (⟨s.nextId, BLOCK_METADATA_SIZE + CHUNK_METADATA_SIZE⟩, n) ≤
        BLOCK_METADATA_SIZE + Chunk.size_hint n
      simp only [chunkEnd, chunkStart]
      omega
    · intro a ha
      obtain ⟨b0, hb0, hid0, hcm0, haddr0, hend0⟩ := w.live_in a ha
      exact ⟨b0, by simp [blocksOf] at hb0 ⊢; tauto, hid0, hcm0, haddr0, hend0⟩
  · intro b2 hb2
    rcases hmem_cases b2 hb2 with he | hm
    · rw [he]
      show 1 = _
      rw [List.filter_cons]
      simp only [beq_self_eq_true, if_pos]
      rw [List.length_cons, filter_id_nil live s.nextId hnolive]
      rfl
    · rw [List.filter_cons]
      have hne : (s.nextId == b2.id) = false := by
        simpa using (hfresh b2 hm).symm
      simp only [hne, Bool.false_eq_true, if_false]
      exact w.counts b2 hm
  · rw [List.pairwise_cons]
    refine ⟨?_, w.disj⟩
    intro a ha hid
    exact absurd hid.symm (hnolive a ha)

theorem wf_alloc (n : Nat) (s s2 : Allocator) (p : Ptr) (live : List (Ptr × Nat))
    (w : WfLive s live) (h : allocate n s = (.ok (some p), s2)) :
    WfLive s2 ((p, n) :: live) := by
  by_cases hn0 : n = 0
  · subst hn0
    have h0 : allocate 0 s = (.ok none, s) := rfl
    rw [h0] at h
    rw [Prod.ext_iff] at h
    exact absurd h.1 (by simp)
  have hfromOwned : allocateFromOwned (Chunk.size_hint n) s = (.ok (some p), s2) →
      WfLive s2 ((p, n) :: live) := by
    intro h2
    unfold allocateFromOwned at h2
    rcases hfind : findBump (Chunk.size_hint n) s.owned with _ | pr
    · rw [hfind] at h2
      by_cases hadm : s.monitor.ram_consumption + target_block_size (Chunk.size_hint n) ≤
          s.monitor.ram_threshold
      · rw [createBlock_ram _ _ hadm] at h2
        rw [Prod.ext_iff] at h2
        obtain ⟨h1, h2⟩ := h2
        simp only [Except.ok.injEq, Option.some.injEq] at h1
        subst h1
        subst h2
        exact wf_newblock n s live Source.RAM _ w hn0
      · by_cases hmm2 : s.monitor.use_mmap = true
        · by_cases hadm2 : s.monitor.mmap_consumption +
              target_block_size (Chunk.size_hint n) ≤ s.monitor.mmap_threshold
          · rw [createBlock_mmap _ _ (by omega) hmm2 hadm2] at h2
            rw [Prod.ext_iff] at h2
            obtain ⟨h1, h2⟩ := h2
            simp only [Except.ok.injEq, Option.some.injEq] at h1
            subst h1
            subst h2
            exact wf_newblock n s live Source.MMAP _ w hn0
          · rw [createBlock_fail _ _ hadm (Or.inr hadm2)] at h2
            rw [Prod.ext_iff] at h2
            exact absurd h2.1 (by simp)
        · have hf : s.monitor.use_mmap = false := by
            revert hmm2
            cases s.monitor.use_mmap <;> simp
          rw [createBlock_fail _ _ hadm (Or.inl hf)] at h2
          rw [Prod.ext_iff] at h2
          exact absurd h2.1 (by simp)
    · obtain ⟨pd, bs2⟩ := pr
      rw [hfind] at h2
      rw [Prod.ext_iff] at h2
      obtain ⟨h1, hs2⟩ := h2
      simp only [Except.ok.injEq, Option.some.injEq] at h1
      obtain ⟨pre, b, post, hdec, hacc, hpd, hbs2⟩ := findBump_decomp _ _ _ _ hfind
      subst h1
      subst hs2
      rw [hpd, hbs2]
      exact wf_ownedbump n s pre post b live w hdec hacc hn0
  rcases hsh : s.shared with _ | sb
  · have hred := allocate_not_shared n s hn0 (Or.inl hsh)
    rw [hred] at h
    exact hfromOwned h
  · rcases hcm : sb.committed with _ | _
    · have halloc := allocate_shared_materialize n s sb hsh hcm hn0
      rw [halloc] at h
      rw [Prod.ext_iff] at h
      obtain ⟨h1, hs2⟩ := h
      simp only [Except.ok.injEq, Option.some.injEq] at h1
      subst h1
      subst hs2
      exact wf_sharedmaterialize n s sb live w hsh hcm hn0
    · rcases hacc : sb.can_accommodate (Chunk.size_hint n) with _ | _
      · have hred := allocate_not_shared n s hn0 (Or.inr ⟨sb, hsh, hcm, hacc⟩)
        rw [hred] at h
        exact hfromOwned h
      · have halloc := allocate_shared_serve n s sb hsh hcm hn0 hacc
        rw [halloc] at h
        rw [Prod.ext_iff] at h
        obtain ⟨h1, hs2⟩ := h
        simp only [Except.ok.injEq, Option.some.injEq] at h1
        subst h1
        subst hs2
        exact wf_sharedserve n s sb live w hsh hcm hacc hn0

theorem allocate_not_some_unchanged (n : Nat) (s : Allocator)
    (r : Except Result (Option Ptr)) (s2 : Allocator)
    (h : allocate n s = (r, s2)) (hr : ∀ p, r ≠ .ok (some p)) : s2 = s := by
  by_cases hn0 : n = 0
  · subst hn0
    have h0 : allocate 0 s = (.ok none, s) := rfl
    rw [h0] at h
    rw [Prod.ext_iff] at h
    exact h.2.symm
  have hfromOwned : allocateFromOwned (Chunk.size_hint n) s = (r, s2) → s2 = s := by
    intro h2
    unfold allocateFromOwned at h2
    rcases hfind : findBump (Chunk.size_hint n) s.owned with _ | pr
    · rw [hfind] at h2
      by_cases hadm : s.monitor.ram_consumption + target_block_size (Chunk.size_hint n) ≤
          s.monitor.ram_threshold
      · rw [createBlock_ram _ _ hadm] at h2
        rw [Prod.ext_iff] at h2
        exact absurd h2.1.symm (hr _)
      · by_cases hmm2 : s.monitor.use_mmap = true
        · by_cases hadm2 : s.monitor.mmap_consumption +
              target_block_size (Chunk.size_hint n) ≤ s.monitor.mmap_threshold
          · rw [createBlock_mmap _ _ (by omega) hmm2 hadm2] at h2
            rw [Prod.ext_iff] at h2
            exact absurd h2.1.symm (hr _)
          · rw [createBlock_fail _ _ hadm (Or.inr hadm2)] at h2
            rw [Prod.ext_iff] at h2
            exact h2.2.symm
        · have hf : s.monitor.use_mmap = false := by
            revert hmm2
            cases s.monitor.use_mmap <;> simp
          rw [createBlock_fail _ _ hadm (Or.inl hf)] at h2
          rw [Prod.ext_iff] at h2
          exact h2.2.symm
    · obtain ⟨pd, bs2⟩ := pr
      rw [hfind] at h2
      rw [Prod.ext_iff] at h2
      exact absurd h2.1.symm (hr _)
  rcases hsh : s.shared with _ | sb
  · exact hfromOwned ((allocate_not_shared n s hn0 (Or.inl hsh)) ▸ h)
  · rcases hcm : sb.committed with _ | _
    · have halloc := allocate_shared_materialize n s sb hsh hcm hn0
      rw [halloc] at h
      rw [Prod.ext_iff] at h
      exact absurd h.1.symm (hr _)
    · rcases hacc : sb.can_accommodate (Chunk.size_hint n) with _ | _
      · exact hfromOwned
          ((allocate_not_shared n s hn0 (Or.inr ⟨sb, hsh, hcm, hacc⟩)) ▸ h)
      · have halloc := allocate_shared_serve n s sb hsh hcm hn0 hacc
        rw [halloc] at h
        rw [Prod.ext_iff] at h
        exact absurd h.1.symm (hr _)

theorem deallocateChunk_id (b : Block) (addr n : Nat) :
    (b.deallocateChunk addr n).id = b.id := by
  simp only [Block.deallocateChunk]
  split <;> rfl

theorem deallocateChunk_committed (b : Block) (addr n : Nat) :
    (b.deallocateChunk addr n).committed = b.committed := by
  simp only [Block.deallocateChunk]
  split <;> rfl

theorem deallocateChunk_capacity (b : Block) (addr n : Nat) :
    (b.deallocateChunk addr n).capacity = b.capacity := by
  simp only [Block.deallocateChunk]
  split <;> rfl

theorem deallocateChunk_count (b : Block) (addr n : Nat) :
    (b.deallocateChunk addr n).chunkCount = b.chunkCount - 1 := by
  simp only [Block.deallocateChunk]
  split <;> rfl

theorem deallocateChunk_offset_retract (b : Block) (addr n : Nat)
    (h : (addr - CHUNK_METADATA_SIZE) + Chunk.size_hint n = b.offset) :
    (b.deallocateChunk addr n).offset = addr - CHUNK_METADATA_SIZE := by
  simp only [Block.deallocateChunk, if_pos h]

theorem deallocateChunk_offset_keep (b : Block) (addr n : Nat)
    (h : ¬((addr - CHUNK_METADATA_SIZE) + Chunk.size_hint n = b.offset)) :
    (b.deallocateChunk addr n).offset = b.offset := by
  simp only [Block.deallocateChunk, if_neg h]

theorem deallocateChunk_offset_le (b : Block) (addr n : Nat)
    (h : (addr - CHUNK_METADATA_SIZE) + Chunk.size_hint n ≤ b.offset) :
    (b.deallocateChunk addr n).offset ≤ b.offset := by
  by_cases hc : (addr - CHUNK_METADATA_SIZE) + Chunk.size_hint n = b.offset
  · rw [deallocateChunk_offset_retract b addr n hc]
    omega
  · rw [deallocateChunk_offset_keep b addr n hc]

theorem deallocateChunk_offset_meta (b : Block) (addr n : Nat)
    (haddr : BLOCK_METADATA_SIZE + CHUNK_METADATA_SIZE ≤ addr)
    (hmeta : BLOCK_METADATA_SIZE ≤ b.offset) :
    BLOCK_METADATA_SIZE ≤ (b.deallocateChunk addr n).offset := by
  by_cases hc : (addr - CHUNK_METADATA_SIZE) + Chunk.size_hint n = b.offset
  · rw [deallocateChunk_offset_retract b addr n hc]
    omega
  · rw [deallocateChunk_offset_keep b addr n hc]
    exact hmeta

theorem removed_chunk_bound (s : Allocator) (live : List (Ptr × Nat)) (a : Ptr × Nat)
    (w : WfLive s live) (ha : a ∈ live) (b : Block) (hb : b ∈ blocksOf s)
    (hidb : b.id = a.1.blockId) :
    ∀ a2 ∈ removeFirst a live, a2.1.blockId = b.id →
      chunkEnd a2 ≤ (b.deallocateChunk a.1.addr a.2).offset := by
  have hnd := disj_nodup live w.disj
  have hnotmem := not_mem_removeFirst_of_nodup a live hnd
  have hsub := removeFirst_sublist a live
  obtain ⟨b0, hb0, hid0, hcm0, haddr0, hend0⟩ := w.live_in a ha
  have hbb0 : b0 = b := pairwise_ids_unique _ w.ids_nodup b0 hb0 b hb (by rw [hid0, ← hidb])
  have hend : chunkEnd a ≤ b.offset := hbb0 ▸ hend0
  intro a2 ha2 hid2
  have ha2live : a2 ∈ live := hsub.subset ha2
  have hne : a2 ≠ a := fun he => hnotmem (he ▸ ha2)
  obtain ⟨b2, hb2, hid2b, _, _, hend2⟩ := w.live_in a2 ha2live
  have hbb2 : b2 = b := pairwise_ids_unique _ w.ids_nodup b2 hb2 b hb (by rw [hid2b, hid2])
  have hend2b : chunkEnd a2 ≤ b.offset := hbb2 ▸ hend2
  by_cases hc : (a.1.addr - CHUNK_METADATA_SIZE) + Chunk.size_hint a.2 = b.offset
  · rw [deallocateChunk_offset_retract _ _ _ hc]
    have hdisj := disj_forall live w.disj a2 ha2live a ha hne (by rw [hid2, hidb])
    rcases hdisj with h1 | h1
    · simpa [chunkStart] using h1
    · exfalso
      have hpos := size_hint_pos a2.2
      simp only [chunkEnd, chunkStart] at hend2b h1 hc
      omega
  · rw [deallocateChunk_offset_keep _ _ _ hc]
    exact hend2b

theorem wf_dealloc_shared (s : Allocator) (live : List (Ptr × Nat)) (a : Ptr × Nat)
    (sb : Block)
    (w : WfLive s live) (ha : a ∈ live)
    (hsh : s.shared = some sb) (hid : sb.id = a.1.blockId) :
    WfLive { s with shared := some (sb.deallocateChunk a.1.addr a.2) }
      (removeFirst a live) := by
  have hbs : blocksOf s = sb :: s.owned := by simp [blocksOf, hsh]
  have hsbmem : sb ∈ blocksOf s := by
    rw [hbs]
    exact List.mem_cons_self sb s.owned
  obtain ⟨b0, hb0, hid0, hcm0, haddr0, hend0⟩ := w.live_in a ha
  have hbb0 : b0 = sb := pairwise_ids_unique _ w.ids_nodup b0 hb0 sb hsbmem (by rw [hid0, ← hid])
  have hcmsb : sb.committed = true := hbb0 ▸ hcm0
  have hend : chunkEnd a ≤ sb.offset := hbb0 ▸ hend0
  have hmeta : BLOCK_METADATA_SIZE ≤ sb.offset := w.geom_meta sb hsbmem hcmsb
  have hle : sb.offset ≤ sb.capacity := w.geom_le sb hsbmem
  have hnd := disj_nodup live w.disj
  have hsub := removeFirst_sublist a live
  have hbound := removed_chunk_bound s live a w ha sb hsbmem hid
  have hownedids : ∀ b ∈ s.owned, sb.id ≠ b.id :=
    (List.pairwise_cons.mp (hbs ▸ w.ids_nodup)).1
  have hfa : (a.1.blockId == sb.id) = true := by simp [hid]
  refine ⟨?_, ?_, ?_, ?_, ?_, ?_, ?_, ?_, ?_, ?_⟩
  · show ∀ b2 ∈ _ :: s.owned, b2.id < s.nextId
    rw [List.forall_mem_cons]
    refine ⟨?_, fun b hb => w.ids_lt b (by rw [hbs]; simp [hb])⟩
    rw [deallocateChunk_id]
    exact w.ids_lt sb hsbmem
  · show List.Pairwise _ (_ :: s.owned)
    rw [List.pairwise_cons]
    refine ⟨?_, (List.pairwise_cons.mp (hbs ▸ w.ids_nodup)).2⟩
    intro b hb
    rw [deallocateChunk_id]
    exact hownedids b hb
  · show ∀ b2 ∈ _ :: s.owned, b2.offset ≤ b2.capacity
    rw [List.forall_mem_cons]
    refine ⟨?_, fun b hb => w.geom_le b (by rw [hbs]; simp [hb])⟩
    rw [deallocateChunk_capacity]
    exact le_trans (deallocateChunk_offset_le _ _ _ hend) hle
  · show ∀ b2 ∈ _ :: s.owned, b2.committed = true → BLOCK_METADATA_SIZE ≤ b2.offset
    rw [List.forall_mem_cons]
    refine ⟨fun _ => ?_, fun b hb => w.geom_meta b (by rw [hbs]; simp [hb])⟩
    exact deallocateChunk_offset_meta _ _ _ haddr0 hmeta
  · show ∀ b2 ∈ _ :: s.owned, b2.committed = false → b2.offset = 0 ∧ b2.chunkCount = 0
    rw [List.forall_mem_cons]
    refine ⟨fun hf => ?_, fun b hb => w.geom_uncommitted b (by rw [hbs]; simp [hb])⟩
    rw [deallocateChunk_committed] at hf
    exact absurd (hcmsb ▸ hf) (by simp)
  · exact w.owned_committed
  · exact fun a2 ha2 => w.live_pos a2 (hsub.subset ha2)
  · intro a2 ha2
    have ha2live : a2 ∈ live := hsub.subset ha2
    obtain ⟨b2, hb2, hid2b, hcm2, haddr2, hend2⟩ := w.live_in a2 ha2live
    by_cases hidb2 : b2.id = sb.id
    · refine ⟨sb.deallocateChunk a.1.addr a.2, by simp [blocksOf], ?_, ?_, haddr2, ?_⟩
      · rw [deallocateChunk_id]
        exact hidb2.symm.trans hid2b
      · rw [deallocateChunk_committed]
        exact hcmsb
      · exact hbound a2 ha2 (hid2b.symm.trans hidb2)
    · have hb2owned : b2 ∈ s.owned := by
        rw [hbs] at hb2
        rcases List.mem_cons.mp hb2 with he | hm
        · exact absurd (he ▸ rfl) hidb2
        · exact hm
      exact ⟨b2, by simp [blocksOf, hb2owned], hid2b, hcm2, haddr2, hend2⟩
  · show ∀ b2 ∈ _ :: s.owned, _
    rw [List.forall_mem_cons]
    constructor
    · rw [deallocateChunk_id, deallocateChunk_count]
      have hc1 := length_filter_removeFirst_pos a live (fun x => x.1.blockId == sb.id) ha hfa
      have hc2 := w.counts sb hsbmem
      omega
    · intro b hb
      have hf : (a.1.blockId == b.id) = false := by
        rw [← hid]
        simpa using hownedids b hb
      have hc1 := length_filter_removeFirst_neg a live (fun x => x.1.blockId == b.id) ha hf
      rw [← hc1]
      exact w.counts b (by rw [hbs]; simp [hb])
  · exact w.disj.sublist hsub

theorem wf_dealloc_owned_keep (s : Allocator) (live : List (Ptr × Nat)) (a : Ptr × Nat)
    (pre post : List Block) (b : Block) (m2 : MemoryMonitor)
    (w : WfLive s live) (ha : a ∈ live)
    (hdec : s.owned = pre ++ b :: post) (hidb : b.id = a.1.blockId) :
    WfLive { s with owned := pre ++ b.deallocateChunk a.1.addr a.2 :: post, monitor := m2 }
      (removeFirst a live) := by
  have hbmem_owned : b ∈ s.owned := by
    rw [hdec]
    simp
  have hbmem : b ∈ blocksOf s := by simp [blocksOf, hbmem_owned]
  have hcmb : b.committed = true := w.owned_committed b hbmem_owned
  have hbs : blocksOf s = s.shared.toList ++ (pre ++ b :: post) := by
    simp [blocksOf, hdec]
  obtain ⟨b0, hb0, hid0, hcm0, haddr0, hend0⟩ := w.live_in a ha
  have hbb0 : b0 = b := pairwise_ids_unique _ w.ids_nodup b0 hb0 b hbmem (by rw [hid0, ← hidb])
  have hend : chunkEnd a ≤ b.offset := hbb0 ▸ hend0
  have hmeta : BLOCK_METADATA_SIZE ≤ b.offset := w.geom_meta b hbmem hcmb
  have hle : b.offset ≤ b.capacity := w.geom_le b hbmem
  have hsub := removeFirst_sublist a live
  have hbound := removed_chunk_bound s live a w ha b hbmem hidb
  have hne_mid := pairwise_ne_middle s.shared.toList pre post b (hbs ▸ w.ids_nodup)
  have hfa : (a.1.blockId == b.id) = true := by simp [hidb]
  refine ⟨?_, ?_, ?_, ?_, ?_, ?_, ?_, ?_, ?_, ?_⟩
  · show ∀ b2 ∈ s.shared.toList ++ (pre ++ _ :: post), b2.id < s.nextId
    intro b2 hb2
    rcases mem_middle_cases _ _ _ _ _ hb2 with he | hm
    · rw [he, deallocateChunk_id]
      exact w.ids_lt b hbmem
    · exact w.ids_lt b2 (by rw [hbs]; exact mem_middle_insert _ _ _ _ _ hm)
  · show List.Pairwise _ (s.shared.toList ++ (pre ++ _ :: post))
    have hpw := w.ids_nodup
    rw [hbs] at hpw
    exact pairwise_ids_middle_replace s.shared.toList pre post b _
      (deallocateChunk_id b a.1.addr a.2) hpw
  · show ∀ b2 ∈ s.shared.toList ++ (pre ++ _ :: post), b2.offset ≤ b2.capacity
    intro b2 hb2
    rcases mem_middle_cases _ _ _ _ _ hb2 with he | hm
    · rw [he, deallocateChunk_capacity]
      exact le_trans (deallocateChunk_offset_le _ _ _ hend) hle
    · exact w.geom_le b2 (by rw [hbs]; exact mem_middle_insert _ _ _ _ _ hm)
  · show ∀ b2 ∈ s.shared.toList ++ (pre ++ _ :: post), b2.committed = true →
      BLOCK_METADATA_SIZE ≤ b2.offset
    intro b2 hb2 hcm2
    rcases mem_middle_cases _ _ _ _ _ hb2 with he | hm
    · rw [he]
      exact deallocateChunk_offset_meta _ _ _ haddr0 hmeta
    · exact w.geom_meta b2 (by rw [hbs]; exact mem_middle_insert _ _ _ _ _ hm) hcm2
  · show ∀ b2 ∈ s.shared.toList ++ (pre ++ _ :: post), b2.committed = false →
      b2.offset = 0 ∧ b2.chunkCount = 0
    intro b2 hb2 hcm2
    rcases mem_middle_cases _ _ _ _ _ hb2 with he | hm
    · rw [he, deallocateChunk_committed] at hcm2
      exact absurd (hcmb ▸ hcm2) (by simp)
    · exact w.geom_uncommitted b2 (by rw [hbs]; exact mem_middle_insert _ _ _ _ _ hm) hcm2
  · show ∀ b2 ∈ pre ++ _ :: post, b2.committed = true
    intro b2 hb2
    rcases List.mem_append.mp hb2 with h | h
    · exact w.owned_committed b2 (by rw [hdec]; simp [h])
    · rcases List.mem_cons.mp h with he | hm
      · rw [he, deallocateChunk_committed]
        exact hcmb
      · exact w.owned_committed b2 (by rw [hdec]; simp [hm])
  · exact fun a2 ha2 => w.live_pos a2 (hsub.subset ha2)
  · intro a2 ha2
    have ha2live : a2 ∈ live := hsub.subset ha2
    obtain ⟨b2, hb2, hid2b, hcm2, haddr2, hend2⟩ := w.live_in a2 ha2live
    by_cases hidb2 : b2.id = b.id
    · refine ⟨b.deallocateChunk a.1.addr a.2, by simp [blocksOf], ?_, ?_, haddr2, ?_⟩
      · rw [deallocateChunk_id]
        exact hidb2.symm.trans hid2b
      · rw [deallocateChunk_committed]
        exact hcmb
      · exact hbound a2 ha2 (hid2b.symm.trans hidb2)
    · have hb2ne : b2 ≠ b := fun he => hidb2 (he ▸ rfl)
      have hb2in : b2 ∈ s.shared.toList ++ (pre ++ post) := by
        have := hbs ▸ hb2
        rcases mem_middle_cases _ _ _ _ _ this with he | hm
        · exact absurd he hb2ne
        · exact hm
      exact ⟨b2, mem_middle_insert _ _ _ _ _ hb2in, hid2b, hcm2, haddr2, hend2⟩
  · show ∀ b2 ∈ s.shared.toList ++ (pre ++ _ :: post), _
    intro b2 hb2
    rcases mem_middle_cases _ _ _ _ _ hb2 with he | hm
    · rw [he, deallocateChunk_id, deallocateChunk_count]
      have hc1 := length_filter_removeFirst_pos a live (fun x => x.1.blockId == b.id) ha hfa
      have hc2 := w.counts b hbmem
      omega
    · have hf : (a.1.blockId == b2.id) = false := by
        rw [← hidb]
        simpa using (hne_mid b2 hm).symm
      have hc1 := length_filter_removeFirst_neg a live (fun x => x.1.blockId == b2.id) ha hf
      rw [← hc1]
      exact w.counts b2 (by rw [hbs]; exact mem_middle_insert _ _ _ _ _ hm)
  · exact w.disj.sublist hsub

theorem wf_dealloc_owned_remove (s : Allocator) (live : List (Ptr × Nat)) (a : Ptr × Nat)
    (pre post : List Block) (b : Block) (m2 : MemoryMonitor)
    (w : WfLive s live) (ha : a ∈ live)
    (hdec : s.owned = pre ++ b :: post) (hidb : b.id = a.1.blockId)
    (hcnt : (b.deallocateChunk a.1.addr a.2).chunkCount = 0) :
    WfLive { s with owned := pre ++ post, monitor := m2 } (removeFirst a live) := by
  have hbmem_owned : b ∈ s.owned := by
    rw [hdec]
    simp
  have hbmem : b ∈ blocksOf s := by simp [blocksOf, hbmem_owned]
  have hcmb : b.committed = true := w.owned_committed b hbmem_owned
  have hbs : blocksOf s = s.shared.toList ++ (pre ++ b :: post) := by
    simp [blocksOf, hdec]
  have hsub := removeFirst_sublist a live
  have hne_mid := pairwise_ne_middle s.shared.toList pre post b (hbs ▸ w.ids_nodup)
  have hfa : (a.1.blockId == b.id) = true := by simp [hidb]
  have hc1 := length_filter_removeFirst_pos a live (fun x => x.1.blockId == b.id) ha hfa
  have hc2 := w.counts b hbmem
  have hcD := deallocateChunk_count b a.1.addr a.2
  have hfilter0 : ((removeFirst a live).filter (fun x => x.1.blockId == b.id)).length = 0 := by
    omega
  have hnone : ∀ a2 ∈ removeFirst a live, a2.1.blockId ≠ b.id := by
    intro a2 ha2 he
    have hmem : a2 ∈ (removeFirst a live).filter (fun x => x.1.blockId == b.id) :=
      List.mem_filter.mpr ⟨ha2, by simp [he]⟩
    rw [List.length_eq_zero.mp hfilter0] at hmem
    exact absurd hmem (by simp)
  have hsubB : (s.shared.toList ++ (pre ++ post)).Sublist
      (s.shared.toList ++ (pre ++ b :: post)) :=
    ((List.sublist_cons_self b post).append_left pre).append_left s.shared.toList
  refine ⟨?_, ?_, ?_, ?_, ?_, ?_, ?_, ?_, ?_, ?_⟩
  · intro b2 hb2
    exact w.ids_lt b2 (by rw [hbs]; exact mem_middle_insert _ _ _ _ _ hb2)
  · show List.Pairwise _ (s.shared.toList ++ (pre ++ post))
    have hpw := w.ids_nodup
    rw [hbs] at hpw
    exact hpw.sublist hsubB
  · intro b2 hb2
    exact w.geom_le b2 (by rw [hbs]; exact mem_middle_insert _ _ _ _ _ hb2)
  · intro b2 hb2 hcm2
    exact w.geom_meta b2 (by rw [hbs]; exact mem_middle_insert _ _ _ _ _ hb2) hcm2
  · intro b2 hb2 hcm2
    exact w.geom_uncommitted b2 (by rw [hbs]; exact mem_middle_insert _ _ _ _ _ hb2) hcm2
  · intro b2 hb2
    have : b2 ∈ pre ++ b :: post := by
      simp only [List.mem_append, List.mem_cons] at hb2 ⊢
      tauto
    exact w.owned_committed b2 (by rw [hdec]; exact this)
  · exact fun a2 ha2 => w.live_pos a2 (hsub.subset ha2)
  · intro a2 ha2
    have ha2live : a2 ∈ live := hsub.subset ha2
    obtain ⟨b2, hb2, hid2b, hcm2, haddr2, hend2⟩ := w.live_in a2 ha2live
    by_cases hidb2 : b2.id = b.id
    · exact absurd (hid2b.symm.trans hidb2) (hnone a2 ha2)
    · have hb2ne : b2 ≠ b := fun he => hidb2 (he ▸ rfl)
      have hb2in : b2 ∈ s.shared.toList ++ (pre ++ post) := by
        have := hbs ▸ hb2
        rcases mem_middle_cases _ _ _ _ _ this with he | hm
        · exact absurd he hb2ne
        · exact hm
      exact ⟨b2, hb2in, hid2b, hcm2, haddr2, hend2⟩
  · intro b2 hb2
    have hf : (a.1.blockId == b2.id) = false := by
      rw [← hidb]
      simpa using (hne_mid b2 hb2).symm
    have hcn := length_filter_removeFirst_neg a live (fun x => x.1.blockId == b2.id) ha hf
    rw [← hcn]
    exact w.counts b2 (by rw [hbs]; exact mem_middle_insert _ _ _ _ _ hb2)
  · exact w.disj.sublist hsub

theorem wf_dealloc (s : Allocator) (live : List (Ptr × Nat)) (a : Ptr × Nat)
    (w : WfLive s live) (ha : a ∈ live) :
    WfLive (deallocate a.1 a.2 s) (removeFirst a live) := by
  obtain ⟨b0, hb0, hid0, hcm0, haddr0, hend0⟩ := w.live_in a ha
  rcases hsh : s.shared with _ | sb
  · have hb0owned : b0 ∈ s.owned := by
      have hmem := hb0
      simp only [blocksOf, hsh, Option.toList_none, List.nil_append] at hmem
      exact hmem
    obtain ⟨pre, post, hdec⟩ := List.append_of_mem hb0owned
    have hbs : blocksOf s = s.shared.toList ++ (pre ++ b0 :: post) := by
      simp [blocksOf, hdec]
    have hne_mid := pairwise_ne_middle s.shared.toList pre post b0 (hbs ▸ w.ids_nodup)
    have hpre : ∀ b2 ∈ pre, b2.id ≠ a.1.blockId := by
      intro b2 hb2 he
      exact hne_mid b2 (by simp [hb2]) (he.trans hid0.symm)
    have hdd := deallocInOwned_decomp a.1 a.2 s.monitor pre post b0 hpre hid0
    have hde : deallocate a.1 a.2 s =
        { s with owned := (deallocInOwned a.1 a.2 s.monitor s.owned).1,
                 monitor := (deallocInOwned a.1 a.2 s.monitor s.owned).2 } := by
      simp only [deallocate, hsh]
    rw [hde, hdec, hdd]
    by_cases hcnt : (b0.deallocateChunk a.1.addr a.2).chunkCount = 0
    · rw [if_pos hcnt]
      exact wf_dealloc_owned_remove s live a pre post b0 _ w ha hdec hid0 hcnt
    · rw [if_neg hcnt]
      exact wf_dealloc_owned_keep s live a pre post b0 _ w ha hdec hid0
  · by_cases hid : sb.id = a.1.blockId
    · have hde : deallocate a.1 a.2 s =
          { s with shared := some (sb.deallocateChunk a.1.addr a.2) } := by
        simp only [deallocate, hsh]
        rw [if_pos hid]
      rw [hde]
      exact wf_dealloc_shared s live a sb w ha hsh hid
    · have hb0owned : b0 ∈ s.owned := by
        have hmem := hb0
        simp only [blocksOf, hsh, Option.toList_some, List.singleton_append,
          List.mem_cons] at hmem
        rcases hmem with he | hm
        · exact absurd (he ▸ hid0) hid
        · exact hm
      obtain ⟨pre, post, hdec⟩ := List.append_of_mem hb0owned
      have hbs : blocksOf s = s.shared.toList ++ (pre ++ b0 :: post) := by
        simp [blocksOf, hdec]
      have hne_mid := pairwise_ne_middle s.shared.toList pre post b0 (hbs ▸ w.ids_nodup)
      have hpre : ∀ b2 ∈ pre, b2.id ≠ a.1.blockId := by
        intro b2 hb2 he
        exact hne_mid b2 (by simp [hb2]) (he.trans hid0.symm)
      have hdd := deallocInOwned_decomp a.1 a.2 s.monitor pre post b0 hpre hid0
      have hde : deallocate a.1 a.2 s =
          { s with owned := (deallocInOwned a.1 a.2 s.monitor s.owned).1,
                   monitor := (deallocInOwned a.1 a.2 s.monitor s.owned).2 } := by
        simp only [deallocate, hsh]
        rw [if_neg hid]
      rw [hde, hdec, hdd]
      by_cases hcnt : (b0.deallocateChunk a.1.addr a.2).chunkCount = 0
      · rw [if_pos hcnt]
        exact wf_dealloc_owned_remove s live a pre post b0 _ w ha hdec hid0 hcnt
      · rw [if_neg hcnt]
        exact wf_dealloc_owned_keep s live a pre post b0 _ w ha hdec hid0

/-- Every reachable (state, live allocations) pair satisfies the allocator
invariant. -/
theorem reach_wf (s : Allocator) (live : List (Ptr × Nat)) (h : Reach s live) :
    WfLive s live := by
  induction h with
  | init sb nid m hsb => exact wf_init sb nid m hsb
  | alloc s live n p s2 hs hal ih => exact wf_alloc n s s2 p live ih hal
  | allocNone s live n r s2 hs hal hr ih =>
    rw [allocate_not_some_unchanged n s r s2 hal hr]
    exact ih
  | dealloc s live a hs ha ih => exact wf_dealloc s live a ih ha
  | config s live m2 hs hc ih => exact wf_config s live m2 ih

/-- C10: in every state reachable by a well-formed client, every live
allocation (returned by a successful `allocate(n)`, n > 0, and not yet
deallocated) designates a region of at least `n` bytes lying inside its
committed owning Block, and the regions of all simultaneously live
allocations are pairwise disjoint — they are in different Blocks or in
non-overlapping address ranges — so writing bytes into one allocation
never alters the contents of another. -/
theorem spec_live_allocations_disjoint (s : Allocator) (live : List (Ptr × Nat))
    (h : Reach s live) :
    (∀ a ∈ live, ∃ b ∈ blocksOf s, b.id = a.1.blockId ∧ b.committed = true ∧
      a.1.addr + a.2 ≤ b.capacity) ∧
    live.Pairwise (fun a1 a2 => a1.1.blockId ≠ a2.1.blockId ∨
      a1.1.addr + a1.2 ≤ a2.1.addr ∨ a2.1.addr + a2.2 ≤ a1.1.addr) := by
  have w := reach_wf s live h
  constructor
  · intro a ha
    obtain ⟨b, hb, hid, hcm, haddr, hend⟩ := w.live_in a ha
    refine ⟨b, hb, hid, hcm, ?_⟩
    have hle := w.geom_le b hb
    have hsz := add_le_size_hint a.2
    simp only [chunkEnd, chunkStart] at hend
    omega
  · refine List.Pairwise.imp_of_mem ?_ w.disj
    intro a1 a2 h1 h2 hr
    by_cases hid : a1.1.blockId = a2.1.blockId
    · rcases hr hid with hd | hd
      · obtain ⟨b1, hb1, _, _, haddr1, hend1⟩ := w.live_in a1 h1
        refine Or.inr (Or.inl ?_)
        have hsz1 := add_le_size_hint a1.2
        simp only [chunkEnd, chunkStart] at hd
        omega
      · obtain ⟨b2, hb2, _, _, haddr2, hend2⟩ := w.live_in a2 h2
        refine Or.inr (Or.inr ?_)
        have hsz2 := add_le_size_hint a2.2
        simp only [chunkEnd, chunkStart] at hd
        omega
    · exact Or.inl hid

/-- Closed instance of `spec_live_allocations_disjoint`: the state reached
by `allocate(16)` on a fresh allocator seeded with a default shared Block,
with its single live allocation. -/
theorem spec_live_allocations_disjoint_witness :
    (∀ a ∈ [((⟨0, 16⟩ : Ptr), 16)],
      ∃ b ∈ blocksOf ⟨some ⟨0, true, Source.RAM, one_MiB,
          BLOCK_METADATA_SIZE + Chunk.size_hint 16, 1⟩, [], 1,
          ⟨0, one_MiB, 0, one_MiB, true⟩⟩,
        b.id = a.1.blockId ∧ b.committed = true ∧ a.1.addr + a.2 ≤ b.capacity) ∧
    List.Pairwise (fun a1 a2 => a1.1.blockId ≠ a2.1.blockId ∨
      a1.1.addr + a1.2 ≤ a2.1.addr ∨ a2.1.addr + a2.2 ≤ a1.1.addr)
      [((⟨0, 16⟩ : Ptr), 16)] :=
  spec_live_allocations_disjoint
    ⟨some ⟨0, true, Source.RAM, one_MiB, BLOCK_METADATA_SIZE + Chunk.size_hint 16, 1⟩,
     [], 1, ⟨0, one_MiB, 0, one_MiB, true⟩⟩
    [((⟨0, 16⟩ : Ptr), 16)]
    (Reach.alloc
      ⟨some ⟨0, false, Source.RAM, 0, 0, 0⟩, [], 1, ⟨0, one_MiB, 0, one_MiB, true⟩⟩
      [] 16 ⟨0, 16⟩
      ⟨some ⟨0, true, Source.RAM, one_MiB, BLOCK_METADATA_SIZE + Chunk.size_hint 16, 1⟩,
       [], 1, ⟨0, one_MiB, 0, one_MiB, true⟩⟩
      (Reach.init (some ⟨0, false, Source.RAM, 0, 0, 0⟩) 1 ⟨0, one_MiB, 0, one_MiB, true⟩
        (fun b hb => by
          injection hb with h2
          subst h2
          exact ⟨rfl, rfl, rfl, by decide⟩))
      rfl)

end Temptable
